import Mathlib

/-!
Verification development for the ccrm-agents synchronization tool.

This file shallowly embeds the reconciliation core of the repository
(`src/tool_manager.py`, `src/workflow_manager.py`, `src/agent_manager.py`,
`src/config.py`) into Lean 4 and proves the frozen specification claims
about it.

Modelling conventions:
* Database tables are Lean lists of row structures; SQL `WHERE` clauses
  become list filters, `INSERT ... ON CONFLICT` becomes an explicit
  upsert on the list keyed by the conflict column.
* The physical storage client is an out-of-scope collaborator (spec §1);
  its ability to reject a tool upsert (e.g. a malformed schema) is
  modelled by the `ToolEnv.insertOk` predicate supplied as a parameter.
* Python `str(uuid.uuid4())` calls are modelled by a deterministic
  counter threaded through the state (`uuidCtr`); the generated values
  are opaque strings and no claim depends on them.
* Python exceptions become `Except Err`; the repository raises plain
  `ValueError` / `FileNotFoundError`, and the `Err` constructors name
  the spec's error taxonomy entries those raises correspond to.
* Operations of `ToolManager` commit right before every successful
  return and raise before modifying anything, so they are modelled
  directly on the committed state.  `WorkflowManager.sync_workflow_to_db`
  and `AgentManager.delete_agent` commit only once, so for those the
  connection is modelled with an explicit committed/pending pair.
-/

set_option maxHeartbeats 1600000

namespace CCRM

/-- Scope enum from `config.py`: partition of agents/workflows into
SYSTEM vs COMMON_BACKGROUND namespaces. -/
inductive Scope
  | SYSTEM
  | COMMON_BACKGROUND
deriving DecidableEq, Repr

/-- Python truthiness of an optional string value (`if not x` for a value
that is either absent, `None`, or a string): `none` and the empty string
are falsy. -/
def truthyStr : Option String → Bool
  | none => false
  | some s => !s.isEmpty

/-- Error taxonomy.  The repository raises `ValueError` / `FileNotFoundError`
with messages; each constructor here names the spec-§7 taxonomy entry the
corresponding raise site realizes. -/
inductive Err
  | toolNotFound (toolId : String)
  | associationExists (count : Nat)
  | danglingReference (agentId : String)
  | agentNotFound (name : String)
  | agentDirNotFound (name : String)
  | toolUpsertFailed (toolId : String)
deriving DecidableEq, Repr

/-- Shape of the `function` sub-object of a declared tool entry in
`jsonSchema.json` (`tools: [{toolId, type, function:{name,description,...}, ...}]`). -/
structure ToolFunctionData where
  name : Option String
  description : Option String
deriving DecidableEq, Repr

/-- Shape of one entry of the `tools` array of an agent's `jsonSchema.json`,
as consumed by `ToolManager.sync_agent_tools`.  Absent JSON keys are `none`. -/
structure ToolEntry where
  toolId : Option String
  type : Option String
  function : Option ToolFunctionData
  internalApiPath : Option String
deriving DecidableEq, Repr

/-- Empty JSON object used by `create_tool` when `json_schema` is falsy. -/
def emptyToolEntry : ToolEntry := ⟨none, none, none, none⟩

/-- Row of `metadata.system_tool`. -/
structure ToolRow where
  id : String
  toolName : String
  descriptionForLlm : String
  jsonSchema : ToolEntry
  toolType : String
  internalApiPath : Option String
  isSystemTool : Bool
deriving DecidableEq, Repr

/-- Row of an agent-tool association table
(`metadata.system_agent_tool` / `metadata.common_background_agent_tool`). -/
structure AssocRow where
  rowId : String
  agentId : String
  toolId : String
deriving DecidableEq, Repr

/-- Committed database state seen by `ToolManager`: the scope-global tool
table and the two scoped association tables, plus the uuid counter. -/
structure ToolSt where
  tools : List ToolRow
  sysAssoc : List AssocRow
  cbAssoc : List AssocRow
  uuidCtr : Nat
deriving DecidableEq, Repr

/-- Storage collaborator for tool upserts: `insertOk row` tells whether the
database accepts the `INSERT ... ON CONFLICT` for `row` (a rejection models
e.g. a malformed schema, spec §4.2 "Failure"). -/
structure ToolEnv where
  insertOk : ToolRow → Bool

/-- Deterministic stand-in for `str(uuid.uuid4())`. -/
def freshUuid (n : Nat) : String := "uuid-" ++ toString n

/-- Table dispatch of `ToolManager._get_agent_tool_table_name`. -/
def assocTableOf : Scope → ToolSt → List AssocRow
  | .SYSTEM, s => s.sysAssoc
  | .COMMON_BACKGROUND, s => s.cbAssoc

/-- Write back the association table selected by
`_get_agent_tool_table_name`. -/
def setAssocTable : Scope → ToolSt → List AssocRow → ToolSt
  | .SYSTEM, s, t => { s with sysAssoc := t }
  | .COMMON_BACKGROUND, s, t => { s with cbAssoc := t }

/-- Effect of the `INSERT INTO metadata.system_tool ... ON CONFLICT (id) DO
UPDATE` statement of `create_tool` on the tool table: on conflict every
listed column is overwritten but `isSystemTool` keeps its stored value
(the update list does not mention it); a fresh row is appended otherwise. -/
def upsertToolRow (row : ToolRow) (tools : List ToolRow) : List ToolRow :=
  if tools.any (fun t => t.id == row.id) then
    tools.map (fun t => if t.id == row.id then { row with isSystemTool := t.isSystemTool } else t)
  else
    tools ++ [row]

/-- Row built by `create_tool` from its arguments: a falsy `json_schema`
becomes the empty object, and the inserted `isSystemTool` is `True`. -/
def mkToolRow (tool_id tool_name description tool_type : String)
    (internal_api_path : Option String) (json_schema : Option ToolEntry) : ToolRow :=
  ⟨tool_id, tool_name, description,
   (match json_schema with | none => emptyToolEntry | some j => j),
   tool_type, internal_api_path, true⟩

/-- Embedding of `ToolManager.create_tool` (tool_manager.py lines 41-70):
build the row, run the upsert (which the storage collaborator may reject),
commit. -/
def create_tool (env : ToolEnv) (tool_id tool_name : String) (description : String)
    (tool_type : String) (internal_api_path : Option String)
    (json_schema : Option ToolEntry) (s : ToolSt) : Except Err String × ToolSt :=
  let row := mkToolRow tool_id tool_name description tool_type internal_api_path json_schema
  if env.insertOk row then
    (.ok tool_id, { s with tools := upsertToolRow row s.tools })
  else
    (.error (.toolUpsertFailed tool_id), s)

/-- Embedding of `ToolManager.get_tool`: `SELECT * FROM metadata.system_tool
WHERE id = %s`, `fetchone`. -/
def get_tool (tool_id : String) (s : ToolSt) : Option ToolRow :=
  s.tools.find? (fun t => t.id == tool_id)

/-- Embedding of `ToolManager.delete_tool` (tool_manager.py lines 117-144):
count associations across both scopes, refuse without `force` when the
count is positive, otherwise delete the associations in both scopes and
then the tool row; the returned flag is the rowcount of the final delete. -/
def delete_tool (tool_id : String) (force : Bool) (s : ToolSt) :
    Except Err Bool × ToolSt :=
  let association_count :=
    (s.sysAssoc.filter (fun r => r.toolId == tool_id)).length +
    (s.cbAssoc.filter (fun r => r.toolId == tool_id)).length
  if association_count > 0 && !force then
    (.error (.associationExists association_count), s)
  else
    let s1 : ToolSt :=
      { s with
        sysAssoc := s.sysAssoc.filter (fun r => !(r.toolId == tool_id))
        cbAssoc := s.cbAssoc.filter (fun r => !(r.toolId == tool_id)) }
    let deletedRows := (s1.tools.filter (fun t => t.id == tool_id)).length
    (.ok (decide (0 < deletedRows)),
      { s1 with tools := s1.tools.filter (fun t => !(t.id == tool_id)) })

/-- Embedding of `ToolManager.associate_tool_with_agent` (lines 168-184):
raise if the tool row is absent; otherwise draw a uuid and run
`INSERT ... ON CONFLICT ("agentId", "toolId") DO NOTHING`, then return
`true` unconditionally. -/
def associate_tool_with_agent (agent_id tool_id : String) (scope : Scope)
    (s : ToolSt) : Except Err Bool × ToolSt :=
  if (get_tool tool_id s).isNone then
    (.error (.toolNotFound tool_id), s)
  else
    let fresh := freshUuid s.uuidCtr
    let s := { s with uuidCtr := s.uuidCtr + 1 }
    let table := assocTableOf scope s
    let table' :=
      if table.any (fun r => r.agentId == agent_id && r.toolId == tool_id) then table
      else table ++ [⟨fresh, agent_id, tool_id⟩]
    (.ok true, setAssocTable scope s table')

/-- Embedding of `ToolManager.disassociate_tool_from_agent` (lines 186-195):
delete all rows for the pair and report whether any row was deleted. -/
def disassociate_tool_from_agent (agent_id tool_id : String) (scope : Scope)
    (s : ToolSt) : Bool × ToolSt :=
  let table := assocTableOf scope s
  let hit := (table.filter (fun r => r.agentId == agent_id && r.toolId == tool_id)).length
  (decide (0 < hit),
    setAssocTable scope s
      (table.filter (fun r => !(r.agentId == agent_id && r.toolId == tool_id))))

/-- Default tool name used by `sync_agent_tools` when the entry's
`function.name` is absent: `f"tool_{tool_id[:8]}"`. -/
def defaultToolName (tool_id : String) : String := "tool_" ++ tool_id.take 8

/-- Tool name taken from a declared entry inside `sync_agent_tools`. -/
def entryToolName (e : ToolEntry) (tool_id : String) : String :=
  match e.function with
  | none => defaultToolName tool_id
  | some f => f.name.getD (defaultToolName tool_id)

/-- Tool description taken from a declared entry inside `sync_agent_tools`. -/
def entryDescription (e : ToolEntry) : String :=
  match e.function with
  | none => ""
  | some f => f.description.getD ""

/-- Tool row that the `create_tool` call issued by `sync_agent_tools` for a
declared entry builds (name/description from `function`, type defaulted to
`custom`, no internal api path, the whole entry as the schema blob). -/
def rowOfEntry (e : ToolEntry) (tool_id : String) : ToolRow :=
  ⟨tool_id, entryToolName e tool_id, entryDescription e, e, e.type.getD "custom", none, true⟩

/-- First loop of `sync_agent_tools` (lines 212-232): walk the declared
entries, skip falsy `toolId`s, upsert each tool and accumulate the ids of
the successful upserts into the `new_tool_ids` set (modelled as a list
without duplicates); a failed upsert is caught, logged and skipped. -/
def processTools (env : ToolEnv) (entries : List ToolEntry) (acc : List String)
    (s : ToolSt) : List String × ToolSt :=
  match entries with
  | [] => (acc, s)
  | e :: rest =>
    match e.toolId with
    | none => processTools env rest acc s
    | some tid =>
      if tid.isEmpty then processTools env rest acc s
      else
        match create_tool env tid (entryToolName e tid) (entryDescription e)
            (e.type.getD "custom") none (some e) s with
        | (.error _, s1) => processTools env rest acc s1
        | (.ok _, s1) =>
          processTools env rest (if acc.contains tid then acc else acc ++ [tid]) s1

/-- Second loop of `sync_agent_tools` (lines 234-239): disassociate every
id in `tools_to_remove`, counting the calls that report a deleted row. -/
def removeAssociations (agent_id : String) (scope : Scope) (tids : List String)
    (s : ToolSt) : Nat × ToolSt :=
  match tids with
  | [] => (0, s)
  | tid :: rest =>
    match disassociate_tool_from_agent agent_id tid scope s with
    | (true, s1) =>
      let (n, s2) := removeAssociations agent_id scope rest s1
      (n + 1, s2)
    | (false, s1) => removeAssociations agent_id scope rest s1

/-- Third loop of `sync_agent_tools` (lines 241-246): associate every
declared id not currently associated, counting the calls that return
`true`; an exception from `associate_tool_with_agent` propagates. -/
def addAssociations (agent_id : String) (scope : Scope) (current : List String)
    (tids : List String) (s : ToolSt) : Except Err Nat × ToolSt :=
  match tids with
  | [] => (.ok 0, s)
  | tid :: rest =>
    if current.contains tid then addAssociations agent_id scope current rest s
    else
      match associate_tool_with_agent agent_id tid scope s with
      | (.error e, s1) => (.error e, s1)
      | (.ok b, s1) =>
        match addAssociations agent_id scope current rest s1 with
        | (.error e, s2) => (.error e, s2)
        | (.ok n, s2) => (.ok (if b then n + 1 else n), s2)

/-- Result dictionary of `sync_agent_tools`.  The code initializes
`created_count` and `updated_count` to 0 and never increments them. -/
structure SyncCounts where
  created : Nat
  updated : Nat
  added : Nat
  removed : Nat
deriving DecidableEq, Repr

/-- Current association set `C` read at the top of `sync_agent_tools`:
the `toolId`s of the agent's rows in the scope's association table,
collected into a Python set (modelled as a deduplicated list). -/
def currentToolIds (agent_id : String) (scope : Scope) (s : ToolSt) : List String :=
  (((assocTableOf scope s).filter (fun r => r.agentId == agent_id)).map
    (fun r => r.toolId)).dedup

/-- Embedding of `ToolManager.sync_agent_tools` (tool_manager.py lines
197-253): read the current association set, upsert the declared tools,
remove stale associations, add new ones, and report the counts. -/
def sync_agent_tools (env : ToolEnv) (agent_id : String) (tools : List ToolEntry)
    (scope : Scope) (s : ToolSt) : Except Err SyncCounts × ToolSt :=
  let current := currentToolIds agent_id scope s
  let pr := processTools env tools [] s
  let toRemove := current.filter (fun t => !(pr.fst.contains t))
  let rm := removeAssociations agent_id scope toRemove pr.snd
  match addAssociations agent_id scope current pr.fst rm.snd with
  | (.error e, s3) => (.error e, s3)
  | (.ok added, s3) => (.ok ⟨0, 0, added, rm.fst⟩, s3)

/-- Tool ids currently associated with an agent in a state, as a finite
set (the observable "association set" the claims speak about). -/
def assocToolIdSet (agent_id : String) (scope : Scope) (s : ToolSt) : Finset String :=
  (((assocTableOf scope s).filter (fun r => r.agentId == agent_id)).map
    (fun r => r.toolId)).toFinset

/-! ## Workflow graph reconciler (`workflow_manager.py`) -/

/-- Node object of a `workflow.json` definition:
`{id, nodeType, nodeName, agentId?}`. -/
structure NodeData where
  id : String
  nodeType : String
  nodeName : String
  agentId : Option String
deriving DecidableEq, Repr

/-- Edge object of a `workflow.json` definition:
`{id, sourceNodeId, targetNodeId?, conditionType, conditionValue?}`. -/
structure EdgeData where
  id : String
  sourceNodeId : String
  targetNodeId : Option String
  conditionType : String
  conditionValue : Option String
deriving DecidableEq, Repr

/-- Parsed `workflow.json` definition; optional keys read with `.get` are
`Option`s. -/
structure WorkflowData where
  id : String
  name : String
  description : Option String
  isConversational : Option Bool
  entrypointNodeId : Option String
  nodes : List NodeData
  edges : List EdgeData
deriving DecidableEq, Repr

/-- Row of the flat `system_agent_workflow` table. -/
structure WorkflowRow where
  id : String
  name : String
  description : String
  entrypoint_node_id : Option String
  is_conversational : Bool
deriving DecidableEq, Repr

/-- Row of the flat `system_agent_workflow_node` table. -/
structure NodeRow where
  id : String
  workflow_id : String
  agent_id : Option String
  node_type : String
  node_name : String
deriving DecidableEq, Repr

/-- Row of the flat `system_agent_workflow_edge` table. -/
structure EdgeRow where
  id : String
  workflow_id : String
  source_node_id : String
  target_node_id : Option String
  condition_type : String
  condition_value : Option String
deriving DecidableEq, Repr

/-- Database state seen by `WorkflowManager`: the flat workflow tables it
writes, plus the agent id columns of the two scopes' agent tables
(repository data model §3; `WorkflowManager` itself only ever queries the
SYSTEM one, see `validateAgentExists`). -/
structure WFDb where
  workflows : List WorkflowRow
  nodes : List NodeRow
  edges : List EdgeRow
  systemAgents : List String
  commonAgents : List String
deriving DecidableEq, Repr

/-- Connection of a `WorkflowManager` session: `pending` is the view of the
open transaction that `cursor.execute` statements modify, `committed` is
what the database durably holds; `conn.commit()` copies pending onto
committed, and an exception leaving the manager discards pending. -/
structure WFConn where
  committed : WFDb
  pending : WFDb
deriving DecidableEq, Repr

/-- Embedding of `WorkflowManager._validate_agent_exists` (lines 46-57):
falsy agent ids resolve to nothing; otherwise a single `SELECT` against
the table `_get_table_name(Scope.SYSTEM, ResourceType.AGENT) =
"system_agent"` decides, and `Scope.SYSTEM` is the only scope ever
returned. -/
def validateAgentExists (db : WFDb) (agent_id : Option String) : Option Scope :=
  match agent_id with
  | none => none
  | some a =>
    if a.isEmpty then none
    else if db.systemAgents.contains a then some Scope.SYSTEM
    else none

/-- Step 1 of `sync_workflow_to_db` (lines 73-87): `INSERT INTO
system_agent_workflow (id, name, description, entrypoint_node_id,
is_conversational) VALUES (.., NULL, ..) ON CONFLICT (id) DO UPDATE SET
name, description, is_conversational` — the conflict update does not
mention `entrypoint_node_id`. -/
def upsertWorkflowShell (d : WorkflowData) (db : WFDb) : WFDb :=
  if db.workflows.any (fun w => w.id == d.id) then
    { db with workflows := db.workflows.map (fun w =>
        if w.id == d.id then
          { w with name := d.name, description := d.description.getD "",
                   is_conversational := d.isConversational.getD false }
        else w) }
  else
    { db with workflows := db.workflows ++
        [⟨d.id, d.name, d.description.getD "", none, d.isConversational.getD false⟩] }

/-- Insertion loop of `_sync_workflow_nodes` (lines 111-127): for each node,
raise if its agent reference is truthy and unresolved, else insert the
node row. -/
def insertNodes (workflow_id : String) (ns : List NodeData) (db : WFDb) :
    Except Err Unit × WFDb :=
  match ns with
  | [] => (.ok (), db)
  | n :: rest =>
    if truthyStr n.agentId && (validateAgentExists db n.agentId).isNone then
      (.error (.danglingReference (n.agentId.getD "")), db)
    else
      insertNodes workflow_id rest
        { db with nodes := db.nodes ++ [⟨n.id, workflow_id, n.agentId, n.nodeType, n.nodeName⟩] }

/-- Embedding of `WorkflowManager._sync_workflow_nodes` (lines 106-127):
delete all node rows of the workflow, then insert the definition's nodes
with agent validation. -/
def syncWorkflowNodes (workflow_id : String) (ns : List NodeData) (db : WFDb) :
    Except Err Unit × WFDb :=
  insertNodes workflow_id ns
    { db with nodes := db.nodes.filter (fun r => !(r.workflow_id == workflow_id)) }

/-- Embedding of `WorkflowManager._sync_workflow_edges` (lines 129-146):
delete all edge rows of the workflow, then insert the definition's edges
without validation. -/
def syncWorkflowEdges (workflow_id : String) (es : List EdgeData) (db : WFDb) : WFDb :=
  { db with edges :=
      db.edges.filter (fun r => !(r.workflow_id == workflow_id)) ++
      es.map (fun e =>
        ⟨e.id, workflow_id, e.sourceNodeId, e.targetNodeId, e.conditionType, e.conditionValue⟩) }

/-- Step 4 of `sync_workflow_to_db` (lines 96-101): `UPDATE
system_agent_workflow SET entrypoint_node_id = %s WHERE id = %s`. -/
def updateEntrypoint (workflow_id entry : String) (db : WFDb) : WFDb :=
  { db with workflows := db.workflows.map (fun w =>
      if w.id == workflow_id then { w with entrypoint_node_id := some entry } else w) }

/-- Embedding of `WorkflowManager.sync_workflow_to_db` (lines 59-104).  The
definition-store read (`workflow.json`) is an out-of-scope collaborator
(spec §1), so the parsed definition `d` is an input.  All statements act on
the pending view; `conn.commit()` runs only once, after every step has
succeeded, and an exception from the node sync leaves the committed state
untouched. -/
def sync_workflow_to_db (workflow_id : String) (d : WorkflowData) (c : WFConn) :
    Except Err String × WFConn :=
  let p0 := upsertWorkflowShell d c.pending
  match syncWorkflowNodes workflow_id d.nodes p0 with
  | (.error e, p1) => (.error e, { c with pending := p1 })
  | (.ok _, p1) =>
    let p2 := syncWorkflowEdges workflow_id d.edges p1
    let p3 :=
      if truthyStr d.entrypointNodeId then
        updateEntrypoint workflow_id (d.entrypointNodeId.getD "") p2
      else p2
    (.ok workflow_id, ⟨p3, p3⟩)

/-- Node rows of a workflow in a database state (the observable "node set
for that workflow" of the claims). -/
def wfNodeRows (workflow_id : String) (db : WFDb) : List NodeRow :=
  db.nodes.filter (fun r => r.workflow_id == workflow_id)

/-- Lookup of a workflow row by id (`SELECT ... WHERE id = %s`, `fetchone`). -/
def wfLookup (workflow_id : String) (db : WFDb) : Option WorkflowRow :=
  db.workflows.find? (fun w => w.id == workflow_id)

/-! ## Agent reconciler (`agent_manager.py`) -/

/-- Row of `metadata.system_agent` / `metadata.common_background_agent`. -/
structure AgentRow where
  id : String
  name : String
  description : String
  systemPrompt : String
  llmModelId : String
  isDefault : Bool
deriving DecidableEq, Repr

/-- Parsed `jsonSchema.json` of an agent definition; keys read with `.get`
are `Option`s, and `tools = none` models an absent `tools` key. -/
structure SchemaFile where
  agentId : Option String
  name : Option String
  description : Option String
  scope : Option String
  tools : Option (List ToolEntry)
deriving DecidableEq, Repr

/-- Local agent definition directory: `systemPrompt.md` plus
`jsonSchema.json`. -/
structure AgentDef where
  systemPromptMd : String
  jsonSchemaJson : SchemaFile
deriving DecidableEq, Repr

/-- Local definition store for agents, keyed by
`definitions/<scope>/Agents/<name>` (spec §6). -/
abbrev AgentFs := List (Scope × String × AgentDef)

/-- Read of an agent definition directory. -/
def fsLookup (scope : Scope) (name : String) (fs : AgentFs) : Option AgentDef :=
  (fs.find? (fun e => decide (e.1 = scope) && e.2.1 == name)).map (fun e => e.2.2)

/-- Overwriting write of an agent definition directory
(`ensure_directory_exists` plus `open(..., 'w')` for both files). -/
def fsWrite (scope : Scope) (name : String) (d : AgentDef) (fs : AgentFs) : AgentFs :=
  fs.filter (fun e => !(decide (e.1 = scope) && e.2.1 == name)) ++ [(scope, name, d)]

/-- String value of a scope (`scope.value` in `config.py`). -/
def scopeValue : Scope → String
  | .SYSTEM => "SYSTEM"
  | .COMMON_BACKGROUND => "COMMON_BACKGROUND"

/-- Default system prompt `f"You are {name}, a helpful AI assistant."`. -/
def defaultPrompt (name : String) : String :=
  "You are " ++ name ++ ", a helpful AI assistant."

/-- Embedding of `AgentManager._create_agent_files` (agent_manager.py lines
68-89): write `systemPrompt.md` (substituting the default prompt when the
given prompt is falsy) and a normalized `jsonSchema.json` with an empty
`tools` list. -/
def create_agent_files (name agent_id : String) (scope : Scope)
    (description system_prompt : String) (fs : AgentFs) : AgentFs :=
  let prompt_content := if system_prompt.isEmpty then defaultPrompt name else system_prompt
  fsWrite scope name
    ⟨prompt_content, ⟨some agent_id, some name, some description, some (scopeValue scope), some []⟩⟩
    fs

/-- Database and filesystem state seen by `AgentManager` for the sync
operations (which commit before returning on every path, as `ToolManager`
does, so the committed state is modelled directly). -/
structure AgentSt where
  sysAgentTbl : List AgentRow
  cbAgentTbl : List AgentRow
  fs : AgentFs
  toolSt : ToolSt
  uuidCtr : Nat
deriving DecidableEq, Repr

/-- Table dispatch of `AgentManager._get_table_name`. -/
def agentTableOf : Scope → AgentSt → List AgentRow
  | .SYSTEM, s => s.sysAgentTbl
  | .COMMON_BACKGROUND, s => s.cbAgentTbl

/-- Write back the agent table selected by `_get_table_name`. -/
def setAgentTable : Scope → AgentSt → List AgentRow → AgentSt
  | .SYSTEM, s, t => { s with sysAgentTbl := t }
  | .COMMON_BACKGROUND, s, t => { s with cbAgentTbl := t }

/-- Effect of the agent `INSERT ... ON CONFLICT (id) DO UPDATE` of
`sync_agent_to_db` (lines 109-125): the conflict update overwrites
`name`, `description` and `systemPrompt` only (`llmModelId` and
`isDefault` keep their stored values). -/
def upsertAgentRow (row : AgentRow) (tbl : List AgentRow) : List AgentRow :=
  if tbl.any (fun r => r.id == row.id) then
    tbl.map (fun r =>
      if r.id == row.id then
        { r with name := row.name, description := row.description,
                 systemPrompt := row.systemPrompt }
      else r)
  else tbl ++ [row]

/-- Python's `str.strip()` with no argument: drop leading and trailing
whitespace characters (written structurally over the character list so
that it evaluates by kernel reduction). -/
def pyStrip (s : String) : String :=
  ⟨((s.data.dropWhile Char.isWhitespace).reverse.dropWhile Char.isWhitespace).reverse⟩

/-- Embedding of `AgentManager.sync_agent_to_db` (lines 91-136): read the
definition (absent directory raises), strip the prompt, take the schema's
`agentId` if present (the `str(uuid.uuid4())` default argument is drawn
eagerly either way), upsert the row, commit, and run the tool sync when
the schema has a `tools` key. -/
def sync_agent_to_db (env : ToolEnv) (name : String) (scope : Scope) (s : AgentSt) :
    Except Err String × AgentSt :=
  match fsLookup scope name s.fs with
  | none => (.error (.agentDirNotFound name), s)
  | some d =>
    let system_prompt := pyStrip d.systemPromptMd
    let fresh := freshUuid s.uuidCtr
    let s0 := { s with uuidCtr := s.uuidCtr + 1 }
    let agent_id := d.jsonSchemaJson.agentId.getD fresh
    let row : AgentRow :=
      ⟨agent_id, name, d.jsonSchemaJson.description.getD "", system_prompt, "gpt-4", false⟩
    let s1 := setAgentTable scope s0 (upsertAgentRow row (agentTableOf scope s0))
    match d.jsonSchemaJson.tools with
    | none => (.ok agent_id, s1)
    | some ts =>
      match sync_agent_tools env agent_id ts scope s1.toolSt with
      | (.error e, t1) => (.error e, { s1 with toolSt := t1 })
      | (.ok _, t1) => (.ok agent_id, { s1 with toolSt := t1 })

/-- Embedding of `AgentManager.sync_agent_from_db` (lines 138-159): select
the row by name (absent row raises), then rewrite the local files from the
row.  `agent['description'] or ''` is the identity on the non-null string
column, so the description is passed through. -/
def sync_agent_from_db (name : String) (scope : Scope) (s : AgentSt) :
    Except Err String × AgentSt :=
  match (agentTableOf scope s).find? (fun r => r.name == name) with
  | none => (.error (.agentNotFound name), s)
  | some a =>
    (.ok a.id, { s with fs := create_agent_files name a.id scope a.description a.systemPrompt s.fs })

/-! ## Intermediate states of `AgentManager.delete_agent` (lines 180-198)

The claim about `delete_agent` is temporal, so the operation is modelled
as the list of its intermediate states: the world after entry, after the
`DELETE` statement is executed on the transaction view, after `rmtree`,
and after `conn.commit()`.  The filesystem has no transaction, so `rmtree`
takes effect immediately; the `DELETE` only reaches the committed database
at the commit. -/

/-- World threaded through `delete_agent`: committed and pending views of
the scope's agent table, plus the local definition store. -/
structure DelWorld where
  committedTbl : List AgentRow
  pendingTbl : List AgentRow
  fs : AgentFs
deriving DecidableEq, Repr

/-- Intermediate states of `delete_agent name scope`, in program order:
initial state; after `cursor.execute(DELETE ... WHERE name = %s)`; then —
only when the rowcount was positive — after `shutil.rmtree` of the agent
directory, and after `conn.commit()`.  On a zero rowcount the method
returns `False` without touching the filesystem and without committing. -/
def deleteAgentTrace (name : String) (scope : Scope) (w : DelWorld) : List DelWorld :=
  let w1 : DelWorld := { w with pendingTbl := w.pendingTbl.filter (fun r => !(r.name == name)) }
  let rowcount := (w.pendingTbl.filter (fun r => r.name == name)).length
  if rowcount = 0 then [w, w1]
  else
    let w2 : DelWorld :=
      { w1 with fs := w1.fs.filter (fun e => !(decide (e.1 = scope) && e.2.1 == name)) }
    let w3 : DelWorld := { w2 with committedTbl := w2.pendingTbl }
    [w, w1, w2, w3]

/-- Embedding of `AgentManager.delete_agent` itself: final world and
returned flag. -/
def delete_agent (name : String) (scope : Scope) (w : DelWorld) : Bool × DelWorld :=
  let rowcount := (w.pendingTbl.filter (fun r => r.name == name)).length
  (decide (0 < rowcount), (deleteAgentTrace name scope w).getLastD w)

/-- Observation on a `delete_agent` intermediate state: the local files of
the agent are gone while the committed database still holds a row of that
name (the situation claim C8 says never occurs). -/
def delMidpointBad (name : String) (scope : Scope) (w : DelWorld) : Bool :=
  (fsLookup scope name w.fs).isNone && w.committedTbl.any (fun r => r.name == name)

/-- Complementary observation: at every intermediate state of
`delete_agent`, local files for the agent exist only while the committed
database still holds a row of that name (no crash point leaves local files
without a matching database row). -/
def delNoGhostFiles (name : String) (scope : Scope) (w : DelWorld) : Bool :=
  (deleteAgentTrace name scope w).all (fun v =>
    !(fsLookup scope name v.fs).isSome || v.committedTbl.any (fun r => r.name == name))

/-! ## Observation helpers -/

/-- Whether an operation result is an exception. -/
def isErr {α : Type} : Except Err α → Bool
  | .error _ => true
  | .ok _ => false

/-- Removed-count projection of a `sync_agent_tools` result. -/
def removedOf : Except Err SyncCounts → Nat
  | .ok c => c.removed
  | .error _ => 0

/-- State reached by one `associate_tool_with_agent` call (discarding the
returned flag). -/
def associateState (agent_id tool_id : String) (scope : Scope) (s : ToolSt) : ToolSt :=
  (associate_tool_with_agent agent_id tool_id scope s).snd

/-- State reached by `n` successive `associate_tool_with_agent` calls for
the same `(agent id, tool id, scope)`. -/
def associateNTimes (agent_id tool_id : String) (scope : Scope) : Nat → ToolSt → ToolSt
  | 0, s => s
  | n + 1, s => associateState agent_id tool_id scope (associateNTimes agent_id tool_id scope n s)

/-- Declared tool-id set `D` of a tool list (the `toolId` fields that are
present). -/
def declaredIdSet (tools : List ToolEntry) : Finset String :=
  (tools.filterMap ToolEntry.toolId).toFinset

/-- Whether a declared entry has a truthy `toolId` and its tool upsert is
accepted by the storage collaborator (the "upserts successfully" condition
of the claims, as a decidable predicate). -/
def entryUpsertOk (env : ToolEnv) (e : ToolEntry) : Bool :=
  match e.toolId with
  | none => false
  | some tid => !tid.isEmpty && env.insertOk (rowOfEntry e tid)

/-! ## Concrete instances used by witnesses and counterexamples -/

/-- Storage collaborator that accepts every tool upsert. -/
def envAccepting : ToolEnv := ⟨fun _ => true⟩

/-- Storage collaborator that rejects exactly the upserts of tool `t1`
(models one malformed declared tool). -/
def envRejectT1 : ToolEnv := ⟨fun r => !(r.id == "t1")⟩

/-- Minimal tool row with a given id. -/
def toolRowNamed (i : String) : ToolRow := ⟨i, "n", "", emptyToolEntry, "custom", none, true⟩

/-- Declared tool entry carrying only a `toolId`. -/
def entryOf (i : String) : ToolEntry := ⟨some i, none, none, none⟩

/-- Declared tool entry with a present-but-empty (falsy) `toolId`. -/
def entryEmptyId : ToolEntry := ⟨some "", none, none, none⟩

/-- Tool state with current association set `C = {a, b, c}` for agent
`ag` in the SYSTEM scope (the spec §8 tool-diff example). -/
def stABC : ToolSt :=
  ⟨[toolRowNamed "a", toolRowNamed "b", toolRowNamed "c"],
   [⟨"r1", "ag", "a"⟩, ⟨"r2", "ag", "b"⟩, ⟨"r3", "ag", "c"⟩], [], 0⟩

/-- Tool state where agent `ag` is associated with tool `t1` only. -/
def stT1 : ToolSt := ⟨[toolRowNamed "t1"], [⟨"r1", "ag", "t1"⟩], [], 0⟩

/-- Tool state where tool `t1` has two associations, one in each scope
(the spec §8 forced-deletion example). -/
def stTwoAssoc : ToolSt :=
  ⟨[toolRowNamed "t1"], [⟨"r1", "ag1", "t1"⟩], [⟨"r2", "ag2", "t1"⟩], 0⟩

/-- Pre-existing workflow row whose entrypoint points at node `n1`. -/
def wfRowOld : WorkflowRow := ⟨"w", "old", "od", some "n1", false⟩

/-- Workflow database holding `wfRowOld`, one stale node row for `w`, and
an agent `acb` present only in the COMMON_BACKGROUND agent table. -/
def wfDbEx : WFDb := ⟨[wfRowOld], [⟨"old1", "w", none, "ROUTER", "Start"⟩], [], [], ["acb"]⟩

/-- Workflow definition for `w` whose single node references agent `acb`
and which specifies entrypoint `n9`. -/
def wfDataEx : WorkflowData :=
  ⟨"w", "new", some "nd", some true, some "n9", [⟨"n9", "ROUTER", "Start", some "acb"⟩], []⟩

/-- Workflow definition for `w` whose single node references an agent id
that exists in no scope at all. -/
def wfDataGhost : WorkflowData :=
  ⟨"w", "new", some "nd", some true, some "n9", [⟨"n9", "ROUTER", "Start", some "ghost"⟩], []⟩

/-- Freshly opened workflow connection over `wfDbEx`. -/
def wfConnEx : WFConn := ⟨wfDbEx, wfDbEx⟩

/-- Agent definition on disk whose prompt ends in a newline. -/
def agentDefEx : AgentDef :=
  ⟨"hello\n", ⟨some "id1", some "a1", some "d", some "SYSTEM", none⟩⟩

/-- Agent-manager state holding only the `agentDefEx` definition for agent
`a1` in the SYSTEM scope. -/
def agentStEx : AgentSt := ⟨[], [], [(Scope.SYSTEM, "a1", agentDefEx)], ⟨[], [], [], 0⟩, 0⟩

/-- Database row for agent `a1`. -/
def agentRowEx : AgentRow := ⟨"id1", "a1", "d", "p", "gpt-4", false⟩

/-- Consistent `delete_agent` starting world: the row is committed and the
local files exist. -/
def delWorldEx : DelWorld := ⟨[agentRowEx], [agentRowEx], [(Scope.SYSTEM, "a1", agentDefEx)]⟩

/-! ## Shared list lemmas -/

/-- Lookup in a list after a keyed in-place update: if the update preserves
the key, the found element is the updated original. -/
theorem find_map_upd {β : Type} (key : String) (idOf : β → String) (upd : β → β)
    (hupd : ∀ b, idOf (upd b) = idOf b) (l : List β) :
    (l.map (fun b => if idOf b == key then upd b else b)).find? (fun b => idOf b == key)
      = (l.find? (fun b => idOf b == key)).map upd := by
  induction l with
  | nil => simp
  | cons x xs ih =>
    cases h : (idOf x == key) with
    | false =>
      simp only [List.map_cons]
      rw [show (if idOf x == key then upd x else x) = x by simp [h]]
      rw [List.find?_cons_of_neg _ (by simp [h]), List.find?_cons_of_neg _ (by simp [h]), ih]
    | true =>
      simp only [List.map_cons]
      rw [show (if idOf x == key then upd x else x) = upd x by simp [h]]
      rw [List.find?_cons_of_pos _ (by simp [hupd, h]), List.find?_cons_of_pos _ (by simp [h])]
      simp

/-- Lookup skips a prefix in which nothing matches. -/
theorem find_append_none {β : Type} (p : β → Bool) (l m : List β)
    (h : l.find? p = none) : (l ++ m).find? p = m.find? p := by
  rw [List.find?_append, h]
  simp

/-- Removing an agent's definition directory removes it from the store. -/
theorem fsLookup_remove (scope : Scope) (name : String) (fs : AgentFs) :
    fsLookup scope name (fs.filter (fun e => !(decide (e.1 = scope) && e.2.1 == name))) = none := by
  unfold fsLookup
  have : (fs.filter (fun e => !(decide (e.1 = scope) && e.2.1 == name))).find?
      (fun e => decide (e.1 = scope) && e.2.1 == name) = none := by
    refine List.find?_eq_none.mpr ?_
    intro x hx
    have hmem := List.mem_filter.mp hx
    simp only [Bool.not_eq_true'] at hmem
    simp [hmem.2]
  rw [this]
  rfl

/-! ## Claim C4: the workflow-shell upsert and the entrypoint column -/

/-- Claim C4, as stated, is false on the conflict path: with a stored
workflow row for `w` whose entrypoint is `n1` and a definition specifying
entrypoint `n9`, the shell-upsert step of `sync_workflow_to_db` leaves the
stored entrypoint at `n1` instead of writing NULL. -/
theorem C4_counterexample :
    (wfLookup "w" (upsertWorkflowShell wfDataEx wfDbEx)).map (fun w => w.entrypoint_node_id)
      = some (some "n1")
    ∧ some "n1" ≠ (none : Option String) := by
  exact ⟨rfl, by simp⟩

/-- Claim C4 (amended): the workflow-shell upsert step of
`sync_workflow_to_db` ignores the definition's entrypoint on both paths,
but writes `entrypoint_node_id = NULL` only on the insert path; on the
on-conflict update path it updates name, description and the
conversational flag while leaving the stored `entrypoint_node_id`
unchanged. -/
theorem C4_theorem (d : WorkflowData) (db : WFDb) :
    (wfLookup d.id db = none →
      wfLookup d.id (upsertWorkflowShell d db)
        = some ⟨d.id, d.name, d.description.getD "", none, d.isConversational.getD false⟩)
    ∧ (∀ w, wfLookup d.id db = some w →
      wfLookup d.id (upsertWorkflowShell d db)
        = some { w with name := d.name, description := d.description.getD "",
                        is_conversational := d.isConversational.getD false }) := by
  constructor
  · intro h
    have hall := List.find?_eq_none.mp h
    have hany : db.workflows.any (fun w => w.id == d.id) = false := by
      rw [Bool.eq_false_iff]
      intro hc
      obtain ⟨x, hx, hpx⟩ := List.any_eq_true.mp hc
      exact hall x hx hpx
    unfold upsertWorkflowShell wfLookup
    rw [if_neg (by simp [hany])]
    rw [find_append_none _ _ _ h]
    rw [List.find?_cons_of_pos _ (by simp)]
  · intro w hw
    have hw' : List.find? (fun v => v.id == d.id) db.workflows = some w := hw
    have hmem := List.mem_of_find?_eq_some hw'
    have hp : (w.id == d.id) = true := by simpa using List.find?_some hw'
    have hany : db.workflows.any (fun v => v.id == d.id) = true :=
      List.any_eq_true.mpr ⟨w, hmem, hp⟩
    unfold upsertWorkflowShell wfLookup
    rw [if_pos (by simp [hany])]
    rw [find_map_upd d.id (fun v => v.id)
      (fun v => { v with name := d.name, description := d.description.getD "",
                         is_conversational := d.isConversational.getD false })
      (fun _ => rfl) db.workflows, hw']
    rfl

/-- Witness for C4: with the stored row `wfRowOld = ⟨w, old, od, n1, false⟩`
and the definition `wfDataEx`, the conflict path of the shell upsert
produces the updated row that still carries entrypoint `n1`. -/
theorem C4_witness :
    wfLookup "w" (upsertWorkflowShell wfDataEx wfDbEx)
      = some ⟨"w", "new", "nd", some "n1", true⟩ :=
  (C4_theorem wfDataEx wfDbEx).2 wfRowOld rfl

/-! ## Claim C5: agent resolution during node sync -/

/-- Claim C5, as stated, is false: with agent `acb` present only in the
COMMON_BACKGROUND agent table, syncing a workflow whose node references
`acb` raises a dangling-reference error instead of accepting the agent. -/
theorem C5_counterexample :
    (sync_workflow_to_db "w" wfDataEx wfConnEx).fst
      = Except.error (Err.danglingReference "acb") := by
  rfl

/-- Claim C5 (amended): node sync resolves a non-falsy agent reference by
querying only the SYSTEM agent table (`system_agent`); the
COMMON_BACKGROUND agent table is never consulted, and a node whose agent
id is absent from the SYSTEM table makes the node sync raise a
dangling-reference error even when that agent exists in the
COMMON_BACKGROUND scope. -/
theorem C5_theorem (db : WFDb) (a : String) (l : List String) (wid : String)
    (n : NodeData) (rest : List NodeData)
    (hA : n.agentId = some a) (hne : a.isEmpty = false) :
    (validateAgentExists db (some a)
        = if db.systemAgents.contains a then some Scope.SYSTEM else none)
    ∧ validateAgentExists { db with commonAgents := l } (some a)
        = validateAgentExists db (some a)
    ∧ (db.systemAgents.contains a = false →
        insertNodes wid (n :: rest) db = (.error (.danglingReference a), db)) := by
  refine ⟨by simp [validateAgentExists, hne], rfl, ?_⟩
  intro h
  have h' : ¬ a ∈ db.systemAgents := by simpa using h
  simp [insertNodes, truthyStr, hA, hne, validateAgentExists, h']

/-- Witness for C5 at agent `acb` of `wfDbEx`, which lives only in the
COMMON_BACKGROUND agent table. -/
theorem C5_witness :
    (validateAgentExists wfDbEx (some "acb")
        = if wfDbEx.systemAgents.contains "acb" then some Scope.SYSTEM else none)
    ∧ validateAgentExists { wfDbEx with commonAgents := [] } (some "acb")
        = validateAgentExists wfDbEx (some "acb")
    ∧ insertNodes "w" (⟨"n9", "ROUTER", "Start", some "acb"⟩ :: []) wfDbEx
        = (.error (.danglingReference "acb"), wfDbEx) := by
  have h := C5_theorem wfDbEx "acb" [] "w" ⟨"n9", "ROUTER", "Start", some "acb"⟩ [] rfl rfl
  exact ⟨h.1, h.2.1, h.2.2 rfl⟩

/-! ## Claim C8: side-effect ordering inside delete_agent -/

/-- Claim C8, as stated, is false: starting from a consistent world, the
trace of `delete_agent` contains an intermediate state (after `rmtree`,
before `conn.commit()`) in which the local files are gone while the
committed database still holds the agent's row. -/
theorem C8_counterexample :
    (deleteAgentTrace "a1" Scope.SYSTEM delWorldEx).any (delMidpointBad "a1" Scope.SYSTEM)
      = true := by
  rfl

/-- Claim C8 (amended): `delete_agent` executes the DELETE statement and
removes the local directory before committing, so there is an intermediate
point with the files gone and the row deletion uncommitted; what the
ordering does guarantee is the spec's stated rationale in the other
direction: at no intermediate point do the local files exist while the
committed database lacks the agent's row. -/
theorem C8_theorem (name : String) (scope : Scope) (w : DelWorld)
    (hcons : (fsLookup scope name w.fs).isSome = true →
      w.committedTbl.any (fun r => r.name == name) = true) :
    delNoGhostFiles name scope w = true := by
  have hgood : ∀ (fs' : AgentFs) (tbl : List AgentRow),
      ((fsLookup scope name fs').isSome = true → tbl.any (fun r => r.name == name) = true) →
      (!(fsLookup scope name fs').isSome || tbl.any (fun r => r.name == name)) = true := by
    intro fs' tbl himp
    cases hf : (fsLookup scope name fs').isSome with
    | false => simp
    | true => simp [himp hf]
  unfold delNoGhostFiles deleteAgentTrace
  by_cases h0 : ((w.pendingTbl.filter (fun r => r.name == name)).length = 0)
  · rw [if_pos h0]
    simp only [List.all_cons, List.all_nil, Bool.and_true]
    rw [hgood w.fs w.committedTbl hcons]
    rfl
  · rw [if_neg h0]
    simp only [List.all_cons, List.all_nil, Bool.and_true]
    rw [hgood w.fs w.committedTbl hcons]
    have hnone := fsLookup_remove scope name w.fs
    rw [show ((fsLookup scope name
        (w.fs.filter (fun e => !(decide (e.1 = scope) && e.2.1 == name)))).isSome) = false by
      rw [hnone]; rfl]
    simp

/-- Witness for C8 at the consistent world `delWorldEx`. -/
theorem C8_witness : delNoGhostFiles "a1" Scope.SYSTEM delWorldEx = true :=
  C8_theorem "a1" Scope.SYSTEM delWorldEx (fun _ => rfl)

/-! ## Claim C9: entries with missing or falsy toolId -/

/-- Helper for C9: the tool-upsert loop of `sync_agent_tools` treats a
declared entry with falsy `toolId` exactly as if the entry were absent. -/
theorem processTools_skip_falsy (env : ToolEnv) (e : ToolEntry)
    (h : truthyStr e.toolId = false) (pre post : List ToolEntry)
    (acc : List String) (s : ToolSt) :
    processTools env (pre ++ e :: post) acc s = processTools env (pre ++ post) acc s := by
  induction pre generalizing acc s with
  | nil =>
    simp only [List.nil_append]
    cases hId : e.toolId with
    | none => simp [processTools, hId]
    | some tid =>
      have hemp : tid.isEmpty = true := by
        simpa [truthyStr, hId] using h
      simp [processTools, hId, hemp]
  | cons x xs ih =>
    simp only [List.cons_append]
    unfold processTools
    cases hId : x.toolId with
    | none => exact ih acc s
    | some tid =>
      by_cases hemp : tid.isEmpty = true
      · simp only [hemp, if_pos]
        exact ih acc s
      · simp only [Bool.not_eq_true] at hemp
        simp only [hemp, Bool.false_eq_true, if_neg, if_false]
        rcases h1 : create_tool env tid (entryToolName x tid) (entryDescription x)
            (x.type.getD "custom") none (some x) s with ⟨r, s1⟩
        cases r with
        | error err => exact ih acc s1
        | ok v => exact ih _ s1

/-- Claim C9 (confirmed): a declared tool entry whose `toolId` is missing
or falsy is silently skipped by `sync_agent_tools` — the whole call
behaves exactly as if the entry were not in the list, so the entry creates
no tool row, contributes to no count, and an existing association with
such a tool is treated as removable. -/
theorem C9_theorem (env : ToolEnv) (agent_id : String) (e : ToolEntry)
    (pre post : List ToolEntry) (scope : Scope) (s : ToolSt)
    (h : truthyStr e.toolId = false) :
    sync_agent_tools env agent_id (pre ++ e :: post) scope s
      = sync_agent_tools env agent_id (pre ++ post) scope s := by
  unfold sync_agent_tools
  rw [processTools_skip_falsy env e h pre post [] s]

/-- Witness for C9: dropping an entry with an empty `toolId` from a
concrete declared list does not change the result of `sync_agent_tools`. -/
theorem C9_witness :
    sync_agent_tools envAccepting "ag" ([entryOf "b"] ++ entryEmptyId :: [entryOf "d"])
        Scope.SYSTEM stABC
      = sync_agent_tools envAccepting "ag" ([entryOf "b"] ++ [entryOf "d"]) Scope.SYSTEM stABC :=
  C9_theorem envAccepting "ag" entryEmptyId [entryOf "b"] [entryOf "d"] Scope.SYSTEM stABC rfl

/-! ## Claim C2: atomicity of workflow node sync on dangling references -/

/-- Helper: the workflow-shell upsert touches only the workflow table. -/
theorem upsertWorkflowShell_agents (d : WorkflowData) (db : WFDb) :
    (upsertWorkflowShell d db).systemAgents = db.systemAgents := by
  unfold upsertWorkflowShell
  split <;> rfl

/-- Helper: the node-insertion loop raises as soon as it reaches a node
whose truthy agent reference is absent from the SYSTEM agent table. -/
theorem insertNodes_err (wid : String) (ns : List NodeData) (db : WFDb)
    (hbad : ∃ nd ∈ ns, ∃ a, nd.agentId = some a ∧ a.isEmpty = false ∧
      db.systemAgents.contains a = false) :
    isErr (insertNodes wid ns db).fst = true := by
  induction ns generalizing db with
  | nil =>
    obtain ⟨nd, hmem, _⟩ := hbad
    exact absurd hmem (List.not_mem_nil nd)
  | cons n rest ih =>
    obtain ⟨nd, hmem, a, hA, hne, hcon⟩ := hbad
    cases hc : (truthyStr n.agentId && (validateAgentExists db n.agentId).isNone) with
    | true =>
      unfold insertNodes
      rw [if_pos (by simp [hc])]
      rfl
    | false =>
      unfold insertNodes
      rw [if_neg (by simp [hc])]
      rcases List.mem_cons.mp hmem with heq | hrest
      · subst heq
        have : (truthyStr nd.agentId && (validateAgentExists db nd.agentId).isNone) = true := by
          have hmemF : ¬ a ∈ db.systemAgents := by simpa using hcon
          simp [truthyStr, validateAgentExists, hA, hne, hmemF]
        rw [this] at hc
        cases hc
      · exact ih _ ⟨nd, hrest, a, hA, hne, hcon⟩

/-- Claim C2 (confirmed): if any node of the definition references an agent
id that exists in no scope, `sync_workflow_to_db` raises, and since the
single `conn.commit()` of the operation is never reached, the committed
database — in particular the node set of that workflow — is exactly what
it was before the call. -/
theorem C2_theorem (workflow_id : String) (d : WorkflowData) (c : WFConn)
    (hbad : ∃ nd ∈ d.nodes, ∃ a, nd.agentId = some a ∧ a.isEmpty = false ∧
      c.pending.systemAgents.contains a = false ∧ c.pending.commonAgents.contains a = false) :
    isErr (sync_workflow_to_db workflow_id d c).fst = true
    ∧ ((sync_workflow_to_db workflow_id d c).snd).committed = c.committed
    ∧ wfNodeRows workflow_id ((sync_workflow_to_db workflow_id d c).snd).committed
        = wfNodeRows workflow_id c.committed := by
  obtain ⟨nd, hmem, a, hA, hne, hconS, _⟩ := hbad
  have hagents : (upsertWorkflowShell d c.pending).systemAgents = c.pending.systemAgents :=
    upsertWorkflowShell_agents d c.pending
  have herr : isErr (syncWorkflowNodes workflow_id d.nodes (upsertWorkflowShell d c.pending)).fst
      = true := by
    unfold syncWorkflowNodes
    apply insertNodes_err
    refine ⟨nd, hmem, a, hA, hne, ?_⟩
    show (upsertWorkflowShell d c.pending).systemAgents.contains a = false
    rw [hagents]
    exact hconS
  rcases hres : syncWorkflowNodes workflow_id d.nodes (upsertWorkflowShell d c.pending) with ⟨r, p1⟩
  cases r with
  | ok u =>
    rw [hres] at herr
    exact absurd herr (by simp [isErr])
  | error e =>
    have hsync : sync_workflow_to_db workflow_id d c = (.error e, { c with pending := p1 }) := by
      simp only [sync_workflow_to_db]
      rw [hres]
    rw [hsync]
    exact ⟨rfl, rfl, rfl⟩

/-- Witness for C2: syncing `wfDataGhost` (whose node references the agent
id `ghost`, present in no scope) over the connection `wfConnEx` raises and
leaves the committed node set of workflow `w` unchanged. -/
theorem C2_witness :
    isErr (sync_workflow_to_db "w" wfDataGhost wfConnEx).fst = true
    ∧ ((sync_workflow_to_db "w" wfDataGhost wfConnEx).snd).committed = wfConnEx.committed
    ∧ wfNodeRows "w" ((sync_workflow_to_db "w" wfDataGhost wfConnEx).snd).committed
        = wfNodeRows "w" wfConnEx.committed :=
  C2_theorem "w" wfDataGhost wfConnEx
    ⟨⟨"n9", "ROUTER", "Start", some "ghost"⟩, by decide, "ghost", rfl, rfl, rfl, rfl⟩

/-! ## Claim C6: delete_tool with and without force -/

/-- Claim C6 (confirmed): with `n > 0` associations summed across both
scopes' association tables (and the data-model invariant that every
association references an existing tool), `delete_tool` without `force`
raises carrying `n` and changes nothing, while `delete_tool` with `force`
removes the associations of both scopes and the tool row and returns
`true`. -/
theorem C6_theorem (tool_id : String) (s : ToolSt) (n : Nat)
    (hn : n = (s.sysAssoc.filter (fun r => r.toolId == tool_id)).length +
              (s.cbAssoc.filter (fun r => r.toolId == tool_id)).length)
    (hpos : 0 < n)
    (hFK : ∀ r ∈ s.sysAssoc ++ s.cbAssoc, s.tools.any (fun t => t.id == r.toolId) = true) :
    delete_tool tool_id false s = (.error (.associationExists n), s)
    ∧ delete_tool tool_id true s =
        (.ok true,
         ⟨s.tools.filter (fun t => !(t.id == tool_id)),
          s.sysAssoc.filter (fun r => !(r.toolId == tool_id)),
          s.cbAssoc.filter (fun r => !(r.toolId == tool_id)),
          s.uuidCtr⟩) := by
  subst hn
  have hex : ∃ r ∈ s.sysAssoc ++ s.cbAssoc, (r.toolId == tool_id) = true := by
    have hcase : 0 < (s.sysAssoc.filter (fun r => r.toolId == tool_id)).length ∨
        0 < (s.cbAssoc.filter (fun r => r.toolId == tool_id)).length := by omega
    rcases hcase with hc | hc
    · obtain ⟨r, hr⟩ := List.exists_mem_of_length_pos hc
      have := List.mem_filter.mp hr
      exact ⟨r, List.mem_append_left _ this.1, this.2⟩
    · obtain ⟨r, hr⟩ := List.exists_mem_of_length_pos hc
      have := List.mem_filter.mp hr
      exact ⟨r, List.mem_append_right _ this.1, this.2⟩
  obtain ⟨r, hrmem, hrid⟩ := hex
  have htool : 0 < (s.tools.filter (fun t => t.id == tool_id)).length := by
    have hany := hFK r hrmem
    obtain ⟨tr, htr, htrid⟩ := List.any_eq_true.mp hany
    have hridEq : r.toolId = tool_id := by simpa using hrid
    refine List.length_pos.mpr (List.ne_nil_of_mem (List.mem_filter.mpr ⟨htr, ?_⟩))
    rw [← hridEq]
    exact htrid
  constructor
  · unfold delete_tool
    rw [if_pos (by simp [hpos])]
  · unfold delete_tool
    rw [if_neg (by simp)]
    simp only
    rw [show (decide (0 < (List.filter (fun t => t.id == tool_id) s.tools).length)) = true
      from decide_eq_true htool]

/-- Witness for C6, the spec §8 example: tool `t1` has two associations,
one in each scope. -/
theorem C6_witness :
    delete_tool "t1" false stTwoAssoc = (.error (.associationExists 2), stTwoAssoc)
    ∧ delete_tool "t1" true stTwoAssoc =
        (.ok true,
         ⟨stTwoAssoc.tools.filter (fun t => !(t.id == "t1")),
          stTwoAssoc.sysAssoc.filter (fun r => !(r.toolId == "t1")),
          stTwoAssoc.cbAssoc.filter (fun r => !(r.toolId == "t1")),
          stTwoAssoc.uuidCtr⟩) :=
  C6_theorem "t1" stTwoAssoc 2 rfl (by decide) (by decide)

/-! ## Claim C10: idempotence of associate_tool_with_agent -/

/-- Helper: writing an association table never changes the tool table. -/
theorem setAssocTable_tools (scope : Scope) (s : ToolSt) (t : List AssocRow) :
    (setAssocTable scope s t).tools = s.tools := by
  cases scope <;> rfl

/-- Helper: `get_tool` depends only on the tool table. -/
theorem get_tool_congr (t : String) {s1 s2 : ToolSt} (h : s1.tools = s2.tools) :
    get_tool t s1 = get_tool t s2 := by
  unfold get_tool
  rw [h]

/-- Helper: behavior of one `associate_tool_with_agent` call when the tool
row exists: returns `true`, keeps the tool table, and either leaves the
association table alone (pair present) or appends one fresh row. -/
theorem associate_ok (a t : String) (sc : Scope) (s : ToolSt)
    (h : (get_tool t s).isSome = true) :
    (associate_tool_with_agent a t sc s).fst = .ok true
    ∧ ((associate_tool_with_agent a t sc s).snd).tools = s.tools
    ∧ assocTableOf sc ((associate_tool_with_agent a t sc s).snd)
        = (if (assocTableOf sc s).any (fun r => r.agentId == a && r.toolId == t) then
            assocTableOf sc s
          else assocTableOf sc s ++ [⟨freshUuid s.uuidCtr, a, t⟩]) := by
  have hnone : (get_tool t s).isNone = false := by
    cases hg : get_tool t s with
    | none => rw [hg] at h; cases h
    | some v => rfl
  cases sc <;>
    simp [associate_tool_with_agent, hnone, assocTableOf, setAssocTable]

/-- Helper: behavior of `associate_tool_with_agent` when the tool row does
not exist: it raises and changes nothing. -/
theorem associate_missing (a t : String) (sc : Scope) (s : ToolSt)
    (h : (get_tool t s).isNone = true) :
    associate_tool_with_agent a t sc s = (.error (.toolNotFound t), s) := by
  unfold associate_tool_with_agent
  rw [if_pos (by simp [h])]

/-- Claim C10 (confirmed): when the tool row exists, every call of
`associate_tool_with_agent` for the same `(agent id, tool id, scope)`
returns `true`, and from the first call on the association table no longer
changes; when the tool row does not exist, the call raises and inserts
nothing. -/
theorem C10_theorem (a t : String) (sc : Scope) (s : ToolSt) :
    ((get_tool t s).isSome = true →
      (∀ n, (associate_tool_with_agent a t sc (associateNTimes a t sc n s)).fst = .ok true)
      ∧ (∀ n, assocTableOf sc (associateNTimes a t sc (n + 1) s)
            = assocTableOf sc (associateNTimes a t sc 1 s)))
    ∧ ((get_tool t s).isNone = true →
      associate_tool_with_agent a t sc s = (.error (.toolNotFound t), s)) := by
  constructor
  · intro hEx
    have hTools : ∀ n, ((associateNTimes a t sc n s).tools) = s.tools := by
      intro n
      induction n with
      | zero => rfl
      | succ k ih =>
        have hk : (get_tool t (associateNTimes a t sc k s)).isSome = true := by
          rw [get_tool_congr t ih]
          exact hEx
        calc ((associateNTimes a t sc (k + 1) s).tools)
            = ((associateState a t sc (associateNTimes a t sc k s)).tools) := rfl
          _ = ((associateNTimes a t sc k s).tools) := (associate_ok a t sc _ hk).2.1
          _ = s.tools := ih
    have hGet : ∀ n, (get_tool t (associateNTimes a t sc n s)).isSome = true := by
      intro n
      rw [get_tool_congr t (hTools n)]
      exact hEx
    have hPair1 : (assocTableOf sc (associateNTimes a t sc 1 s)).any
        (fun r => r.agentId == a && r.toolId == t) = true := by
      have h1 := (associate_ok a t sc s hEx).2.2
      show (assocTableOf sc ((associate_tool_with_agent a t sc s).snd)).any
          (fun r => r.agentId == a && r.toolId == t) = true
      rw [h1]
      cases hany : (assocTableOf sc s).any (fun r => r.agentId == a && r.toolId == t) with
      | true => rw [if_pos (by simp [hany])]; exact hany
      | false =>
        rw [if_neg (by simp [hany])]
        simp
    have hStable : ∀ s', (get_tool t s').isSome = true →
        (assocTableOf sc s').any (fun r => r.agentId == a && r.toolId == t) = true →
        assocTableOf sc (associateState a t sc s') = assocTableOf sc s' := by
      intro s' h1 h2
      show assocTableOf sc ((associate_tool_with_agent a t sc s').snd) = assocTableOf sc s'
      rw [(associate_ok a t sc s' h1).2.2, if_pos (by simp [h2])]
    refine ⟨fun n => (associate_ok a t sc _ (hGet n)).1, ?_⟩
    intro n
    induction n with
    | zero => rfl
    | succ k ih =>
      have hPairK : (assocTableOf sc (associateNTimes a t sc (k + 1) s)).any
          (fun r => r.agentId == a && r.toolId == t) = true := by
        rw [ih]
        exact hPair1
      calc assocTableOf sc (associateNTimes a t sc (k + 2) s)
          = assocTableOf sc (associateState a t sc (associateNTimes a t sc (k + 1) s)) := rfl
        _ = assocTableOf sc (associateNTimes a t sc (k + 1) s) :=
            hStable _ (hGet (k + 1)) hPairK
        _ = assocTableOf sc (associateNTimes a t sc 1 s) := ih
  · intro hN
    exact associate_missing a t sc s hN

/-- Witness for C10: the second and third calls for the pair
`(ag, a, SYSTEM)` over `stABC` still return `true` and no longer change the
association table, and associating a missing tool `zz` raises. -/
theorem C10_witness :
    (associate_tool_with_agent "ag" "a" Scope.SYSTEM
        (associateNTimes "ag" "a" Scope.SYSTEM 2 stABC)).fst = .ok true
    ∧ assocTableOf Scope.SYSTEM (associateNTimes "ag" "a" Scope.SYSTEM 3 stABC)
        = assocTableOf Scope.SYSTEM (associateNTimes "ag" "a" Scope.SYSTEM 1 stABC)
    ∧ associate_tool_with_agent "ag" "zz" Scope.SYSTEM stABC
        = (.error (.toolNotFound "zz"), stABC) := by
  have hA := C10_theorem "ag" "a" Scope.SYSTEM stABC
  have hZ := C10_theorem "ag" "zz" Scope.SYSTEM stABC
  have h := hA.1 (by decide)
  exact ⟨h.1 2, h.2 2, hZ.2 (by decide)⟩

/-! ## Shared lemmas on the phases of sync_agent_tools -/

/-- Equation: an accepted tool upsert commits the upserted table. -/
theorem create_tool_ok (env : ToolEnv) (i nm ds ty : String) (ip : Option String)
    (js : Option ToolEntry) (s : ToolSt)
    (h : env.insertOk (mkToolRow i nm ds ty ip js) = true) :
    create_tool env i nm ds ty ip js s =
      (.ok i, { s with tools := upsertToolRow (mkToolRow i nm ds ty ip js) s.tools }) := by
  unfold create_tool
  rw [if_pos (by simp [h])]

/-- Equation: a rejected tool upsert raises and changes nothing. -/
theorem create_tool_fail (env : ToolEnv) (i nm ds ty : String) (ip : Option String)
    (js : Option ToolEntry) (s : ToolSt)
    (h : env.insertOk (mkToolRow i nm ds ty ip js) = false) :
    create_tool env i nm ds ty ip js s = (.error (.toolUpsertFailed i), s) := by
  unfold create_tool
  rw [if_neg (by simp [h])]

/-- Lookup-isSome is invariant under mapping by a predicate-preserving
function. -/
theorem find_isSome_map {β : Type} (p : β → Bool) (f : β → β)
    (hf : ∀ b, p (f b) = p b) (l : List β) :
    ((l.map f).find? p).isSome = (l.find? p).isSome := by
  induction l with
  | nil => rfl
  | cons x xs ih =>
    cases hx : p x with
    | true =>
      rw [List.map_cons, List.find?_cons_of_pos _ (by simp [hf, hx]),
        List.find?_cons_of_pos _ hx]
      rfl
    | false =>
      rw [List.map_cons, List.find?_cons_of_neg _ (by simp [hf, hx]),
        List.find?_cons_of_neg _ (by simp [hx])]
      exact ih

/-- The tool upsert keeps every existing tool id findable. -/
theorem upsert_keeps (x : String) (row : ToolRow) (l : List ToolRow)
    (h : (l.find? (fun t => t.id == x)).isSome = true) :
    ((upsertToolRow row l).find? (fun t => t.id == x)).isSome = true := by
  unfold upsertToolRow
  split
  · rw [find_isSome_map]
    · exact h
    · intro b
      by_cases hb : (b.id == row.id) = true
      · have : b.id = row.id := by simpa using hb
        simp [hb, this]
      · simp [hb]
  · rw [List.find?_append]
    cases hf : l.find? (fun t => t.id == x) with
    | none => rw [hf] at h; cases h
    | some v => simp

/-- The tool upsert makes the upserted id findable. -/
theorem upsert_adds (row : ToolRow) (l : List ToolRow) :
    ((upsertToolRow row l).find? (fun t => t.id == row.id)).isSome = true := by
  unfold upsertToolRow
  split
  · next hany =>
    rw [find_isSome_map]
    · obtain ⟨t, htmem, htid⟩ := List.any_eq_true.mp hany
      cases hf : l.find? (fun t => t.id == row.id) with
      | none =>
        exact absurd htid (by simpa using List.find?_eq_none.mp hf t htmem)
      | some v => rfl
    · intro b
      by_cases hb : (b.id == row.id) = true
      · have : b.id = row.id := by simpa using hb
        simp [hb, this]
      · simp [hb]
  · rw [List.find?_append]
    cases hf : l.find? (fun t => t.id == row.id) with
    | none => simp
    | some v => simp

/-- The tool-upsert loop never touches the association tables or the uuid
counter. -/
theorem processTools_assoc (env : ToolEnv) (entries : List ToolEntry)
    (acc : List String) (s : ToolSt) :
    ((processTools env entries acc s).snd).sysAssoc = s.sysAssoc
    ∧ ((processTools env entries acc s).snd).cbAssoc = s.cbAssoc
    ∧ ((processTools env entries acc s).snd).uuidCtr = s.uuidCtr := by
  induction entries generalizing acc s with
  | nil => exact ⟨rfl, rfl, rfl⟩
  | cons e rest ih =>
    unfold processTools
    cases hId : e.toolId with
    | none => exact ih acc s
    | some tid =>
      by_cases hemp : tid.isEmpty = true
      · simp only [hemp, if_pos]
        exact ih acc s
      · simp only [Bool.not_eq_true] at hemp
        simp only [hemp, Bool.false_eq_true, if_neg, if_false]
        cases hok : env.insertOk (rowOfEntry e tid) with
        | false =>
          rw [create_tool_fail env tid (entryToolName e tid) (entryDescription e)
            (e.type.getD "custom") none (some e) s hok]
          exact ih acc s
        | true =>
          rw [create_tool_ok env tid (entryToolName e tid) (entryDescription e)
            (e.type.getD "custom") none (some e) s hok]
          exact ih _ _

/-- Every id collected by the tool-upsert loop has a tool row in the
resulting state. -/
theorem processTools_tools (env : ToolEnv) (entries : List ToolEntry)
    (acc : List String) (s : ToolSt)
    (hacc : ∀ x ∈ acc, (get_tool x s).isSome = true) :
    ∀ x ∈ (processTools env entries acc s).fst,
      (get_tool x ((processTools env entries acc s).snd)).isSome = true := by
  induction entries generalizing acc s with
  | nil => exact hacc
  | cons e rest ih =>
    unfold processTools
    cases hId : e.toolId with
    | none => exact ih acc s hacc
    | some tid =>
      by_cases hemp : tid.isEmpty = true
      · simp only [hemp, if_pos]
        exact ih acc s hacc
      · simp only [Bool.not_eq_true] at hemp
        simp only [hemp, Bool.false_eq_true, if_neg, if_false]
        cases hok : env.insertOk (rowOfEntry e tid) with
        | false =>
          rw [create_tool_fail env tid (entryToolName e tid) (entryDescription e)
            (e.type.getD "custom") none (some e) s hok]
          exact ih acc s hacc
        | true =>
          rw [create_tool_ok env tid (entryToolName e tid) (entryDescription e)
            (e.type.getD "custom") none (some e) s hok]
          apply ih
          intro x hx
          have hkeep : ∀ y, y ∈ acc → (get_tool y
              { s with tools := upsertToolRow (rowOfEntry e tid) s.tools }).isSome = true := by
            intro y hy
            exact upsert_keeps y (rowOfEntry e tid) s.tools (hacc y hy)
          by_cases hc : acc.contains tid = true
          · rw [if_pos hc] at hx
            exact hkeep x hx
          · rw [if_neg hc] at hx
            rcases List.mem_append.mp hx with hxa | hxt
            · exact hkeep x hxa
            · have hxe : x = tid := by simpa using hxt
              rw [hxe]
              exact upsert_adds (rowOfEntry e tid) s.tools

/-- Exact characterization of the `new_tool_ids` set built by the
tool-upsert loop: the ids already accumulated plus the truthy ids of
entries whose upsert the storage accepts. -/
theorem processTools_mem (env : ToolEnv) (entries : List ToolEntry)
    (acc : List String) (s : ToolSt) (x : String) :
    x ∈ (processTools env entries acc s).fst ↔
      (x ∈ acc ∨ ∃ e ∈ entries, e.toolId = some x ∧ x.isEmpty = false ∧
        env.insertOk (rowOfEntry e x) = true) := by
  induction entries generalizing acc s with
  | nil => simp [processTools]
  | cons e rest ih =>
    unfold processTools
    cases hId : e.toolId with
    | none =>
      rw [ih acc s]
      constructor
      · rintro (h | ⟨e', he', hx⟩)
        · exact Or.inl h
        · exact Or.inr ⟨e', List.mem_cons_of_mem e he', hx⟩
      · rintro (h | ⟨e', he', hid, hcond⟩)
        · exact Or.inl h
        · rcases List.mem_cons.mp he' with rfl | hr
          · rw [hId] at hid
            exact Option.noConfusion hid
          · exact Or.inr ⟨e', hr, hid, hcond⟩
    | some tid =>
      by_cases hemp : tid.isEmpty = true
      · simp only [hemp, if_pos]
        rw [ih acc s]
        constructor
        · rintro (h | ⟨e', he', hx⟩)
          exacts [Or.inl h, Or.inr ⟨e', List.mem_cons_of_mem e he', hx⟩]
        · rintro (h | ⟨e', he', hid, hne, hcond⟩)
          · exact Or.inl h
          · rcases List.mem_cons.mp he' with rfl | hr
            · rw [hId] at hid
              injection hid with hxe
              rw [hxe] at hemp
              rw [hemp] at hne
              exact Bool.noConfusion hne
            · exact Or.inr ⟨e', hr, hid, hne, hcond⟩
      · simp only [Bool.not_eq_true] at hemp
        simp only [hemp, Bool.false_eq_true, if_neg, if_false]
        cases hok : env.insertOk (rowOfEntry e tid) with
        | false =>
          rw [create_tool_fail env tid (entryToolName e tid) (entryDescription e)
            (e.type.getD "custom") none (some e) s hok]
          rw [ih acc s]
          constructor
          · rintro (h | ⟨e', he', hx⟩)
            exacts [Or.inl h, Or.inr ⟨e', List.mem_cons_of_mem e he', hx⟩]
          · rintro (h | ⟨e', he', hid, hne, hcond⟩)
            · exact Or.inl h
            · rcases List.mem_cons.mp he' with rfl | hr
              · rw [hId] at hid
                injection hid with hxe
                rw [← hxe] at hcond
                rw [hok] at hcond
                exact Bool.noConfusion hcond
              · exact Or.inr ⟨e', hr, hid, hne, hcond⟩
        | true =>
          rw [create_tool_ok env tid (entryToolName e tid) (entryDescription e)
            (e.type.getD "custom") none (some e) s hok]
          rw [ih _ _]
          have hacc' : ∀ z : String,
              z ∈ (if acc.contains tid = true then acc else acc ++ [tid]) ↔
                (z ∈ acc ∨ z = tid) := by
            intro z
            by_cases hc : acc.contains tid = true
            · rw [if_pos hc]
              constructor
              · exact Or.inl
              · rintro (h | rfl)
                · exact h
                · exact List.elem_iff.mp hc
            · rw [if_neg hc]
              simp
          constructor
          · rintro (h | ⟨e', he', hx⟩)
            · rcases (hacc' x).mp h with h' | rfl
              · exact Or.inl h'
              · exact Or.inr ⟨e, List.mem_cons_self e rest, hId, hemp, hok⟩
            · exact Or.inr ⟨e', List.mem_cons_of_mem e he', hx⟩
          · rintro (h | ⟨e', he', hid, hne, hcond⟩)
            · exact Or.inl ((hacc' x).mpr (Or.inl h))
            · rcases List.mem_cons.mp he' with rfl | hr
              · rw [hId] at hid
                injection hid with hxe
                exact Or.inl ((hacc' x).mpr (Or.inr hxe.symm))
              · exact Or.inr ⟨e', hr, hid, hne, hcond⟩

/-- The `new_tool_ids` set is modelled as a list without duplicates. -/
theorem processTools_nodup (env : ToolEnv) (entries : List ToolEntry)
    (acc : List String) (s : ToolSt) (h : acc.Nodup) :
    ((processTools env entries acc s).fst).Nodup := by
  induction entries generalizing acc s with
  | nil => exact h
  | cons e rest ih =>
    unfold processTools
    cases hId : e.toolId with
    | none => exact ih acc s h
    | some tid =>
      by_cases hemp : tid.isEmpty = true
      · simp only [hemp, if_pos]
        exact ih acc s h
      · simp only [Bool.not_eq_true] at hemp
        simp only [hemp, Bool.false_eq_true, if_neg, if_false]
        cases hok : env.insertOk (rowOfEntry e tid) with
        | false =>
          rw [create_tool_fail env tid (entryToolName e tid) (entryDescription e)
            (e.type.getD "custom") none (some e) s hok]
          exact ih acc s h
        | true =>
          rw [create_tool_ok env tid (entryToolName e tid) (entryDescription e)
            (e.type.getD "custom") none (some e) s hok]
          apply ih
          by_cases hc : acc.contains tid = true
          · rw [if_pos hc]
            exact h
          · rw [if_neg hc]
            have hnm : ¬ tid ∈ acc := fun hm => hc (List.elem_iff.mpr hm)
            simp [List.nodup_append, h, hnm]

/-- Equation for a single disassociation: report whether a row matched,
and delete all matching rows. -/
theorem disassociate_eq (a tid : String) (sc : Scope) (s : ToolSt) :
    disassociate_tool_from_agent a tid sc s
      = (decide (0 < ((assocTableOf sc s).filter
            (fun r => r.agentId == a && r.toolId == tid)).length),
         setAssocTable sc s ((assocTableOf sc s).filter
            (fun r => !(r.agentId == a && r.toolId == tid)))) := rfl

/-- Writing the same scope's association table twice keeps the last
write. -/
theorem setAssocTable_set (sc : Scope) (s : ToolSt) (t1 t2 : List AssocRow) :
    setAssocTable sc (setAssocTable sc s t1) t2 = setAssocTable sc s t2 := by
  cases sc <;> rfl

/-- Reading back a written association table. -/
theorem assocTableOf_setAssocTable (sc : Scope) (s : ToolSt) (t : List AssocRow) :
    assocTableOf sc (setAssocTable sc s t) = t := by
  cases sc <;> rfl

/-- State component of a single disassociation. -/
theorem disassociate_snd (a tid : String) (sc : Scope) (s : ToolSt) :
    (disassociate_tool_from_agent a tid sc s).snd
      = setAssocTable sc s ((assocTableOf sc s).filter
          (fun r => !(r.agentId == a && r.toolId == tid))) := rfl

/-- Unrolling of the removal loop: the resulting state threads through the
head disassociation regardless of its reported flag. -/
theorem removeAssociations_cons_snd (a tid : String) (sc : Scope) (rest : List String)
    (s : ToolSt) :
    (removeAssociations a sc (tid :: rest) s).snd
      = (removeAssociations a sc rest ((disassociate_tool_from_agent a tid sc s).snd)).snd := by
  conv_lhs => rw [removeAssociations]
  rcases hd : disassociate_tool_from_agent a tid sc s with ⟨b, s1⟩
  cases b
  · rfl
  · rcases hrm : removeAssociations a sc rest s1 with ⟨n2, s2⟩
    dsimp only
    rw [hrm]

/-- State effect of the removal loop: it deletes exactly the agent's rows
whose tool id is in the removal list. -/
theorem removeAssociations_snd (a : String) (sc : Scope) (tids : List String) (s : ToolSt) :
    (removeAssociations a sc tids s).snd
      = setAssocTable sc s ((assocTableOf sc s).filter
          (fun r => !(r.agentId == a && tids.contains r.toolId))) := by
  induction tids generalizing s with
  | nil =>
    show s = _
    have hfa : (assocTableOf sc s).filter
        (fun r => !(r.agentId == a && ([] : List String).contains r.toolId))
        = assocTableOf sc s := by
      simp [List.contains]
    rw [hfa]
    cases sc <;> rfl
  | cons tid rest ih =>
    rw [removeAssociations_cons_snd, disassociate_snd, ih]
    rw [assocTableOf_setAssocTable, setAssocTable_set, List.filter_filter]
    apply congrArg (setAssocTable sc s)
    apply List.filter_congr
    intro r hmem
    cases hA : (r.agentId == a) <;> cases h1 : (r.toolId == tid) <;>
      cases h2 : rest.contains r.toolId <;>
      simp only [hA, h1, h2, List.contains_cons] <;> rfl

/-- Bridge between Python set membership and the Bool `contains`. -/
theorem contains_eq_false_of_not_mem {x : String} {l : List String} (h : ¬ x ∈ l) :
    l.contains x = false := by
  cases hc : l.contains x with
  | false => rfl
  | true => exact absurd (List.elem_iff.mp hc) h

/-- Converse bridge. -/
theorem not_mem_of_contains_eq_false {x : String} {l : List String}
    (h : l.contains x = false) : ¬ x ∈ l := by
  intro hm
  have hc : l.contains x = true := List.elem_iff.mpr hm
  rw [hc] at h
  exact Bool.noConfusion h

/-- The removal loop never touches the tool table. -/
theorem removeAssociations_tools (a : String) (sc : Scope) (tids : List String) (s : ToolSt) :
    ((removeAssociations a sc tids s).snd).tools = s.tools := by
  rw [removeAssociations_snd]
  exact setAssocTable_tools sc s _

/-- Count reported by the removal loop: when the removal list has no
duplicates and every listed id has a matching row, every disassociation
reports a deleted row, so the count is the list's length. -/
theorem removeAssociations_count (a : String) (sc : Scope) (tids : List String) (s : ToolSt)
    (hnd : tids.Nodup)
    (hall : ∀ tid ∈ tids, (assocTableOf sc s).any
      (fun r => r.agentId == a && r.toolId == tid) = true) :
    (removeAssociations a sc tids s).fst = tids.length := by
  induction tids generalizing s with
  | nil => rfl
  | cons tid rest ih =>
    have hpos : 0 < ((assocTableOf sc s).filter
        (fun r => r.agentId == a && r.toolId == tid)).length := by
      obtain ⟨r, hrm, hrp⟩ := List.any_eq_true.mp (hall tid (List.mem_cons_self tid rest))
      exact List.length_pos.mpr (List.ne_nil_of_mem (List.mem_filter.mpr ⟨hrm, hrp⟩))
    have hd : disassociate_tool_from_agent a tid sc s
        = (true, setAssocTable sc s ((assocTableOf sc s).filter
            (fun r => !(r.agentId == a && r.toolId == tid)))) := by
      rw [disassociate_eq, decide_eq_true hpos]
    have hnotin : ¬ tid ∈ rest := (List.nodup_cons.mp hnd).1
    have hall' : ∀ tid' ∈ rest,
        (assocTableOf sc (setAssocTable sc s ((assocTableOf sc s).filter
          (fun r => !(r.agentId == a && r.toolId == tid))))).any
          (fun r => r.agentId == a && r.toolId == tid') = true := by
      intro tid' hmem
      rw [assocTableOf_setAssocTable]
      obtain ⟨r, hrm, hrp⟩ := List.any_eq_true.mp (hall tid' (List.mem_cons_of_mem tid hmem))
      have hA : (r.agentId == a) = true := by
        cases hA : (r.agentId == a) with
        | true => rfl
        | false => rw [hA] at hrp; exact Bool.noConfusion hrp
      have ht' : (r.toolId == tid') = true := by
        cases ht : (r.toolId == tid') with
        | true => rfl
        | false => rw [hA, ht] at hrp; exact Bool.noConfusion hrp
      have hneq : (r.toolId == tid) = false := by
        have h1 : r.toolId = tid' := by simpa using ht'
        have h2 : tid' ≠ tid := fun he => hnotin (he ▸ hmem)
        simp [h1, h2]
      refine List.any_eq_true.mpr ⟨r, List.mem_filter.mpr ⟨hrm, ?_⟩, hrp⟩
      rw [hA, hneq]
      rfl
    conv_lhs => rw [removeAssociations]
    rw [hd]
    dsimp only
    have hrec := ih (setAssocTable sc s ((assocTableOf sc s).filter
      (fun r => !(r.agentId == a && r.toolId == tid)))) (List.nodup_cons.mp hnd).2 hall'
    rcases hrm2 : removeAssociations a sc rest (setAssocTable sc s ((assocTableOf sc s).filter
      (fun r => !(r.agentId == a && r.toolId == tid)))) with ⟨n2, s2⟩
    rw [hrm2] at hrec
    simp only [List.length_cons]
    dsimp only at hrec ⊢
    rw [hrec]

/-- Set effect of the removal loop on the agent's association set. -/
theorem removeAssociations_set (a : String) (sc : Scope) (tids : List String) (s : ToolSt) :
    assocToolIdSet a sc ((removeAssociations a sc tids s).snd)
      = assocToolIdSet a sc s \ tids.toFinset := by
  rw [removeAssociations_snd]
  unfold assocToolIdSet
  rw [assocTableOf_setAssocTable]
  ext x
  simp only [List.mem_toFinset, List.mem_map, List.mem_filter, Finset.mem_sdiff]
  constructor
  · rintro ⟨r, ⟨⟨hrt, hbig⟩, hA⟩, rfl⟩
    have hcf : tids.contains r.toolId = false := by
      cases hcc : tids.contains r.toolId with
      | false => rfl
      | true => rw [hA, hcc] at hbig; exact Bool.noConfusion hbig
    exact ⟨⟨r, ⟨hrt, hA⟩, rfl⟩, not_mem_of_contains_eq_false hcf⟩
  · rintro ⟨⟨r, ⟨hrt, hA⟩, rfl⟩, hnm⟩
    have hcf : tids.contains r.toolId = false := contains_eq_false_of_not_mem hnm
    refine ⟨r, ⟨⟨hrt, ?_⟩, hA⟩, rfl⟩
    rw [hA, hcf]
    rfl

/-- The current association set is read without duplicates. -/
theorem currentToolIds_nodup (a : String) (sc : Scope) (s : ToolSt) :
    (currentToolIds a sc s).Nodup :=
  List.nodup_dedup _

/-- The current association list and the association set agree. -/
theorem currentToolIds_toFinset (a : String) (sc : Scope) (s : ToolSt) :
    (currentToolIds a sc s).toFinset = assocToolIdSet a sc s := by
  unfold currentToolIds assocToolIdSet
  ext x
  simp [List.mem_dedup]

/-- Every id in the current association set has a matching row. -/
theorem mem_current_any (a : String) (sc : Scope) (s : ToolSt) (tid : String)
    (h : tid ∈ currentToolIds a sc s) :
    (assocTableOf sc s).any (fun r => r.agentId == a && r.toolId == tid) = true := by
  unfold currentToolIds at h
  rw [List.mem_dedup] at h
  obtain ⟨r, hr, hrt⟩ := List.mem_map.mp h
  have hf := List.mem_filter.mp hr
  refine List.any_eq_true.mpr ⟨r, hf.1, ?_⟩
  rw [hf.2]
  simp [hrt]

/-- Reading the association table only depends on the two association
columns. -/
theorem assocTableOf_congr {s1 s2 : ToolSt} (sc : Scope)
    (hs : s1.sysAssoc = s2.sysAssoc) (hc : s1.cbAssoc = s2.cbAssoc) :
    assocTableOf sc s1 = assocTableOf sc s2 := by
  cases sc <;> assumption

/-- The current-association read only depends on the association table. -/
theorem currentToolIds_congr (a : String) (sc : Scope) {s1 s2 : ToolSt}
    (h : assocTableOf sc s1 = assocTableOf sc s2) :
    currentToolIds a sc s1 = currentToolIds a sc s2 := by
  unfold currentToolIds
  rw [h]

/-- The association set only depends on the association table. -/
theorem assocToolIdSet_congr (a : String) (sc : Scope) {s1 s2 : ToolSt}
    (h : assocTableOf sc s1 = assocTableOf sc s2) :
    assocToolIdSet a sc s1 = assocToolIdSet a sc s2 := by
  unfold assocToolIdSet
  rw [h]

/-- Set effect of one association call when the tool row exists: the pair's
tool id joins the agent's association set (a no-op when already there). -/
theorem associate_set (a t : String) (sc : Scope) (s : ToolSt)
    (h : (get_tool t s).isSome = true) :
    assocToolIdSet a sc ((associate_tool_with_agent a t sc s).snd)
      = insert t (assocToolIdSet a sc s) := by
  have h3 := (associate_ok a t sc s h).2.2
  unfold assocToolIdSet
  rw [h3]
  cases hany : (assocTableOf sc s).any (fun r => r.agentId == a && r.toolId == t) with
  | true =>
    rw [if_pos (by simp [hany])]
    obtain ⟨r, hrm, hrp⟩ := List.any_eq_true.mp hany
    have hA : (r.agentId == a) = true := by
      cases hA : (r.agentId == a) with
      | true => rfl
      | false => rw [hA] at hrp; exact Bool.noConfusion hrp
    have ht : r.toolId = t := by
      have hb : (r.toolId == t) = true := by
        cases hb : (r.toolId == t) with
        | true => rfl
        | false => rw [hA, hb] at hrp; exact Bool.noConfusion hrp
      simpa using hb
    have hmem : t ∈ ((assocTableOf sc s).filter (fun r => r.agentId == a)).map
        (fun r => r.toolId) :=
      List.mem_map.mpr ⟨r, List.mem_filter.mpr ⟨hrm, hA⟩, ht⟩
    rw [Finset.insert_eq_self.mpr (List.mem_toFinset.mpr hmem)]
  | false =>
    rw [if_neg (by simp [hany])]
    rw [List.filter_append, List.map_append, List.toFinset_append]
    rw [show (List.filter (fun r => r.agentId == a)
        [(⟨freshUuid s.uuidCtr, a, t⟩ : AssocRow)]) = [⟨freshUuid s.uuidCtr, a, t⟩] by simp]
    rw [Finset.insert_eq, Finset.union_comm]
    rfl

/-- Full behavior of the association-adding loop when every listed tool
row exists: it returns the number of ids not currently associated, keeps
the tool table, and unions those ids into the agent's association set. -/
theorem addAssociations_spec (a : String) (sc : Scope) (current tids : List String)
    (s : ToolSt)
    (htools : ∀ tid ∈ tids, (get_tool tid s).isSome = true) :
    (addAssociations a sc current tids s).fst
        = .ok ((tids.filter (fun t => !(current.contains t))).length)
    ∧ ((addAssociations a sc current tids s).snd).tools = s.tools
    ∧ assocToolIdSet a sc ((addAssociations a sc current tids s).snd)
        = assocToolIdSet a sc s ∪ (tids.filter (fun t => !(current.contains t))).toFinset := by
  induction tids generalizing s with
  | nil =>
    refine ⟨rfl, rfl, ?_⟩
    show assocToolIdSet a sc s
        = assocToolIdSet a sc s ∪ (([] : List String).filter
            (fun t => !(current.contains t))).toFinset
    simp
  | cons tid rest ih =>
    by_cases hc : current.contains tid = true
    · have hskip : addAssociations a sc current (tid :: rest) s
          = addAssociations a sc current rest s := by
        conv_lhs => rw [addAssociations]
        rw [if_pos hc]
      have hfilter : (tid :: rest).filter (fun t => !(current.contains t))
          = rest.filter (fun t => !(current.contains t)) :=
        List.filter_cons_of_neg (by rw [hc]; simp)
      rw [hskip, hfilter]
      exact ih s (fun t ht => htools t (List.mem_cons_of_mem tid ht))
    · have hcf : current.contains tid = false := by
        cases hcc : current.contains tid with
        | false => rfl
        | true => exact absurd hcc hc
      have hex : (get_tool tid s).isSome = true := htools tid (List.mem_cons_self tid rest)
      have hfst := (associate_ok a tid sc s hex).1
      have htl := (associate_ok a tid sc s hex).2.1
      have hset := associate_set a tid sc s hex
      rcases hassoc : associate_tool_with_agent a tid sc s with ⟨r1, s1⟩
      rw [hassoc] at hfst htl hset
      dsimp only at hfst htl hset
      subst hfst
      have ihs := ih s1 (fun t ht => by
        rw [get_tool_congr t htl]
        exact htools t (List.mem_cons_of_mem tid ht))
      rcases hrec : addAssociations a sc current rest s1 with ⟨r2, s2⟩
      rw [hrec] at ihs
      dsimp only at ihs
      obtain ⟨ih1, ih2, ih3⟩ := ihs
      subst ih1
      have hstep : addAssociations a sc current (tid :: rest) s
          = (.ok ((rest.filter (fun t => !(current.contains t))).length + 1), s2) := by
        conv_lhs => rw [addAssociations]
        rw [if_neg hc, hassoc]
        dsimp only
        rw [hrec]
        rfl
      rw [hstep]
      have hfcons : (tid :: rest).filter (fun t => !(current.contains t))
          = tid :: rest.filter (fun t => !(current.contains t)) :=
        List.filter_cons_of_pos (by rw [hcf]; rfl)
      refine ⟨by rw [hfcons]; rfl, ?_, ?_⟩
      · show s2.tools = s.tools
        rw [ih2, htl]
      · show assocToolIdSet a sc s2 = _
        rw [ih3, hset, Finset.insert_union, hfcons, List.toFinset_cons,
          Finset.union_insert]

/-- Cardinality of the finite set of a duplicate-free list. -/
theorem card_toFinset_of_nodup (l : List String) (hl : l.Nodup) :
    l.toFinset.card = l.length := by
  rw [List.card_toFinset, List.dedup_eq_self.mpr hl]

/-! ## Claim C1: tool diff correctness -/

/-- Claim C1 (confirmed): when every declared entry has a truthy tool id
and its upsert is accepted, `sync_agent_tools` reports
`removed = |C − D|` and `added = |D − C|` (with `C` the current
association set and `D` the declared tool-id set), and the post-state
association set of the agent equals `D`. -/
theorem C1_theorem (env : ToolEnv) (agent_id : String) (tools : List ToolEntry)
    (scope : Scope) (s : ToolSt)
    (hAll : ∀ e ∈ tools, entryUpsertOk env e = true) :
    (sync_agent_tools env agent_id tools scope s).fst
      = .ok ⟨0, 0,
          (declaredIdSet tools \ (currentToolIds agent_id scope s).toFinset).card,
          ((currentToolIds agent_id scope s).toFinset \ declaredIdSet tools).card⟩
    ∧ assocToolIdSet agent_id scope ((sync_agent_tools env agent_id tools scope s).snd)
      = declaredIdSet tools := by
  rcases hP : processTools env tools [] s with ⟨newIds, s1⟩
  have hPn : (processTools env tools [] s).fst = newIds := by rw [hP]
  have hPs : (processTools env tools [] s).snd = s1 := by rw [hP]
  have hnodupN : newIds.Nodup := by
    have h := processTools_nodup env tools [] s List.nodup_nil
    rwa [hPn] at h
  have htoolsN : ∀ x ∈ newIds, (get_tool x s1).isSome = true := by
    have h := processTools_tools env tools [] s
      (fun x hx => absurd hx (List.not_mem_nil x))
    intro x hx
    rw [← hPs]
    exact h x (by rw [hPn]; exact hx)
  have hassoc1 := processTools_assoc env tools [] s
  rw [hPs] at hassoc1
  have htbl1 : assocTableOf scope s1 = assocTableOf scope s :=
    assocTableOf_congr scope hassoc1.1 hassoc1.2.1
  have hmemN : ∀ x, x ∈ newIds ↔ x ∈ tools.filterMap ToolEntry.toolId := by
    intro x
    have hiff := processTools_mem env tools [] s x
    rw [hPn] at hiff
    rw [hiff]
    constructor
    · rintro (hx | ⟨e, he, hid, _⟩)
      · exact absurd hx (List.not_mem_nil x)
      · exact List.mem_filterMap.mpr ⟨e, he, hid⟩
    · intro hx
      obtain ⟨e, he, hid⟩ := List.mem_filterMap.mp hx
      have hok := hAll e he
      unfold entryUpsertOk at hok
      rw [hid] at hok
      dsimp only at hok
      simp only [Bool.and_eq_true] at hok
      obtain ⟨h1, h2⟩ := hok
      exact Or.inr ⟨e, he, hid, by simpa using h1, h2⟩
  have hsetN : newIds.toFinset = declaredIdSet tools := by
    unfold declaredIdSet
    ext x
    rw [List.mem_toFinset, List.mem_toFinset]
    exact hmemN x
  have hremNodup : ((currentToolIds agent_id scope s).filter
      (fun t => !(newIds.contains t))).Nodup :=
    (currentToolIds_nodup agent_id scope s).filter _
  have hallR : ∀ tid ∈ (currentToolIds agent_id scope s).filter
      (fun t => !(newIds.contains t)),
      (assocTableOf scope s1).any
        (fun r => r.agentId == agent_id && r.toolId == tid) = true := by
    intro tid htid
    rw [htbl1]
    exact mem_current_any agent_id scope s tid (List.mem_filter.mp htid).1
  rcases hR : removeAssociations agent_id scope ((currentToolIds agent_id scope s).filter
      (fun t => !(newIds.contains t))) s1 with ⟨removed, s2⟩
  have hRn : (removeAssociations agent_id scope ((currentToolIds agent_id scope s).filter
      (fun t => !(newIds.contains t))) s1).fst = removed := by rw [hR]
  have hRs : (removeAssociations agent_id scope ((currentToolIds agent_id scope s).filter
      (fun t => !(newIds.contains t))) s1).snd = s2 := by rw [hR]
  have hremoved : removed = ((currentToolIds agent_id scope s).filter
      (fun t => !(newIds.contains t))).length := by
    have h := removeAssociations_count agent_id scope _ s1 hremNodup hallR
    rwa [hRn] at h
  have hset2 : assocToolIdSet agent_id scope s2
      = assocToolIdSet agent_id scope s \ ((currentToolIds agent_id scope s).filter
          (fun t => !(newIds.contains t))).toFinset := by
    have h := removeAssociations_set agent_id scope ((currentToolIds agent_id scope s).filter
      (fun t => !(newIds.contains t))) s1
    rw [hRs] at h
    rw [h, assocToolIdSet_congr agent_id scope htbl1]
  have htools2 : ∀ x ∈ newIds, (get_tool x s2).isSome = true := by
    intro x hx
    have hteq : s2.tools = s1.tools := by
      have h := removeAssociations_tools agent_id scope ((currentToolIds agent_id scope s).filter
        (fun t => !(newIds.contains t))) s1
      rwa [hRs] at h
    rw [get_tool_congr x hteq]
    exact htoolsN x hx
  have hadd := addAssociations_spec agent_id scope (currentToolIds agent_id scope s)
    newIds s2 htools2
  rcases hA : addAssociations agent_id scope (currentToolIds agent_id scope s) newIds s2
    with ⟨radd, s3⟩
  rw [hA] at hadd
  dsimp only at hadd
  obtain ⟨hA1, hA2, hA3⟩ := hadd
  subst hA1
  have hsync : sync_agent_tools env agent_id tools scope s
      = (.ok ⟨0, 0, (newIds.filter
          (fun t => !((currentToolIds agent_id scope s).contains t))).length, removed⟩, s3) := by
    simp only [sync_agent_tools]
    rw [hP]
    dsimp only
    rw [hR]
    dsimp only
    rw [hA]
  have haddF : (newIds.filter
      (fun t => !((currentToolIds agent_id scope s).contains t))).toFinset
      = declaredIdSet tools \ (currentToolIds agent_id scope s).toFinset := by
    ext x
    simp only [List.mem_toFinset, List.mem_filter, Finset.mem_sdiff]
    constructor
    · rintro ⟨hx, hcb⟩
      have hCc : (currentToolIds agent_id scope s).contains x = false := by
        cases hcc : (currentToolIds agent_id scope s).contains x with
        | false => rfl
        | true => rw [hcc] at hcb; exact Bool.noConfusion hcb
      exact ⟨by rw [← hsetN]; exact List.mem_toFinset.mpr hx,
        not_mem_of_contains_eq_false hCc⟩
    · rintro ⟨hd, hnc⟩
      refine ⟨List.mem_toFinset.mp (by rw [hsetN]; exact hd), ?_⟩
      rw [contains_eq_false_of_not_mem hnc]
      rfl
  have hremF : ((currentToolIds agent_id scope s).filter
      (fun t => !(newIds.contains t))).toFinset
      = (currentToolIds agent_id scope s).toFinset \ declaredIdSet tools := by
    ext x
    simp only [List.mem_toFinset, List.mem_filter, Finset.mem_sdiff]
    constructor
    · rintro ⟨hx, hcb⟩
      have hNc : newIds.contains x = false := by
        cases hcc : newIds.contains x with
        | false => rfl
        | true => rw [hcc] at hcb; exact Bool.noConfusion hcb
      refine ⟨hx, ?_⟩
      intro hmem
      exact (not_mem_of_contains_eq_false hNc)
        (List.mem_toFinset.mp (by rw [hsetN]; exact hmem))
    · rintro ⟨hc, hnd⟩
      refine ⟨hc, ?_⟩
      rw [contains_eq_false_of_not_mem (fun hm => hnd (by
        rw [← hsetN]
        exact List.mem_toFinset.mpr hm))]
      rfl
  constructor
  · rw [hsync]
    dsimp only
    have e1 : (newIds.filter
        (fun t => !((currentToolIds agent_id scope s).contains t))).length
        = (declaredIdSet tools \ (currentToolIds agent_id scope s).toFinset).card := by
      rw [← haddF, card_toFinset_of_nodup _ (hnodupN.filter _)]
    have e2 : removed
        = ((currentToolIds agent_id scope s).toFinset \ declaredIdSet tools).card := by
      rw [hremoved, ← hremF, card_toFinset_of_nodup _ hremNodup]
    rw [e1, e2]
  · rw [hsync]
    dsimp only
    rw [hA3, hset2, hremF]
    rw [haddF]
    rw [← currentToolIds_toFinset agent_id scope s]
    rw [Finset.sdiff_sdiff_self_left, Finset.inter_comm, Finset.union_comm,
      Finset.sdiff_union_inter]

/-- Witness for C1, the spec §8 example: current associations
`C = {a, b, c}` and declared tools `D = {b, c, d}`. -/
theorem C1_witness :
    (sync_agent_tools envAccepting "ag" [entryOf "b", entryOf "c", entryOf "d"]
        Scope.SYSTEM stABC).fst
      = .ok ⟨0, 0,
          (declaredIdSet [entryOf "b", entryOf "c", entryOf "d"]
            \ (currentToolIds "ag" Scope.SYSTEM stABC).toFinset).card,
          ((currentToolIds "ag" Scope.SYSTEM stABC).toFinset
            \ declaredIdSet [entryOf "b", entryOf "c", entryOf "d"]).card⟩
    ∧ assocToolIdSet "ag" Scope.SYSTEM
        ((sync_agent_tools envAccepting "ag" [entryOf "b", entryOf "c", entryOf "d"]
          Scope.SYSTEM stABC).snd)
      = declaredIdSet [entryOf "b", entryOf "c", entryOf "d"] :=
  C1_theorem envAccepting "ag" [entryOf "b", entryOf "c", entryOf "d"]
    Scope.SYSTEM stABC (by decide)

/-! ## Claim C3: a declared tool whose upsert fails -/

/-- Claim C3, as stated, is false: with agent `ag` currently associated to
tool `t1` and a declared list consisting only of an entry for `t1` whose
upsert the storage rejects, `sync_agent_tools` reports `removed = 1` (not
0) and the association of `t1` is gone, not kept. -/
theorem C3_counterexample :
    (sync_agent_tools envRejectT1 "ag" [entryOf "t1"] Scope.SYSTEM stT1).fst
        = .ok ⟨0, 0, 0, 1⟩
    ∧ ¬ "t1" ∈ assocToolIdSet "ag" Scope.SYSTEM
        ((sync_agent_tools envRejectT1 "ag" [entryOf "t1"] Scope.SYSTEM stT1).snd)
    ∧ ¬ removedOf (sync_agent_tools envRejectT1 "ag" [entryOf "t1"] Scope.SYSTEM stT1).fst
        = 0 := by
  refine ⟨rfl, by decide, by decide⟩

/-- Claim C3 (amended): a declared tool entry whose upsert raises is
skipped — it contributes nothing to the `added` count and the operation
continues without raising — but because the failed id never enters the
declared set, a currently-associated tool whose every declared upsert
fails is treated as undeclared: its association is removed and counted in
`removed` (which is therefore at least 1). -/
theorem C3_theorem (env : ToolEnv) (agent_id : String) (tools : List ToolEntry)
    (scope : Scope) (s : ToolSt) (t : String)
    (ht : t ∈ currentToolIds agent_id scope s)
    (hfail : ∀ e ∈ tools, e.toolId = some t → env.insertOk (rowOfEntry e t) = false) :
    isErr (sync_agent_tools env agent_id tools scope s).fst = false
    ∧ ¬ t ∈ assocToolIdSet agent_id scope
        ((sync_agent_tools env agent_id tools scope s).snd)
    ∧ 1 ≤ removedOf (sync_agent_tools env agent_id tools scope s).fst := by
  rcases hP : processTools env tools [] s with ⟨newIds, s1⟩
  have hPn : (processTools env tools [] s).fst = newIds := by rw [hP]
  have hPs : (processTools env tools [] s).snd = s1 := by rw [hP]
  have hnodupN : newIds.Nodup := by
    have h := processTools_nodup env tools [] s List.nodup_nil
    rwa [hPn] at h
  have htoolsN : ∀ x ∈ newIds, (get_tool x s1).isSome = true := by
    have h := processTools_tools env tools [] s
      (fun x hx => absurd hx (List.not_mem_nil x))
    intro x hx
    rw [← hPs]
    exact h x (by rw [hPn]; exact hx)
  have hassoc1 := processTools_assoc env tools [] s
  rw [hPs] at hassoc1
  have htbl1 : assocTableOf scope s1 = assocTableOf scope s :=
    assocTableOf_congr scope hassoc1.1 hassoc1.2.1
  have hnotinN : ¬ t ∈ newIds := by
    intro hmem
    have hiff := processTools_mem env tools [] s t
    rw [hPn] at hiff
    rcases hiff.mp hmem with hx | ⟨e, he, hid, _, hok⟩
    · exact absurd hx (List.not_mem_nil t)
    · rw [hfail e he hid] at hok
      exact Bool.noConfusion hok
  have htR : t ∈ (currentToolIds agent_id scope s).filter
      (fun x => !(newIds.contains x)) := by
    refine List.mem_filter.mpr ⟨ht, ?_⟩
    rw [contains_eq_false_of_not_mem hnotinN]
    rfl
  have hremNodup : ((currentToolIds agent_id scope s).filter
      (fun x => !(newIds.contains x))).Nodup :=
    (currentToolIds_nodup agent_id scope s).filter _
  have hallR : ∀ tid ∈ (currentToolIds agent_id scope s).filter
      (fun x => !(newIds.contains x)),
      (assocTableOf scope s1).any
        (fun r => r.agentId == agent_id && r.toolId == tid) = true := by
    intro tid htid
    rw [htbl1]
    exact mem_current_any agent_id scope s tid (List.mem_filter.mp htid).1
  rcases hR : removeAssociations agent_id scope ((currentToolIds agent_id scope s).filter
      (fun x => !(newIds.contains x))) s1 with ⟨removed, s2⟩
  have hRn : (removeAssociations agent_id scope ((currentToolIds agent_id scope s).filter
      (fun x => !(newIds.contains x))) s1).fst = removed := by rw [hR]
  have hRs : (removeAssociations agent_id scope ((currentToolIds agent_id scope s).filter
      (fun x => !(newIds.contains x))) s1).snd = s2 := by rw [hR]
  have hremoved : removed = ((currentToolIds agent_id scope s).filter
      (fun x => !(newIds.contains x))).length := by
    have h := removeAssociations_count agent_id scope _ s1 hremNodup hallR
    rwa [hRn] at h
  have hset2 : assocToolIdSet agent_id scope s2
      = assocToolIdSet agent_id scope s \ ((currentToolIds agent_id scope s).filter
          (fun x => !(newIds.contains x))).toFinset := by
    have h := removeAssociations_set agent_id scope ((currentToolIds agent_id scope s).filter
      (fun x => !(newIds.contains x))) s1
    rw [hRs] at h
    rw [h, assocToolIdSet_congr agent_id scope htbl1]
  have htools2 : ∀ x ∈ newIds, (get_tool x s2).isSome = true := by
    intro x hx
    have hteq : s2.tools = s1.tools := by
      have h := removeAssociations_tools agent_id scope ((currentToolIds agent_id scope s).filter
        (fun x => !(newIds.contains x))) s1
      rwa [hRs] at h
    rw [get_tool_congr x hteq]
    exact htoolsN x hx
  have hadd := addAssociations_spec agent_id scope (currentToolIds agent_id scope s)
    newIds s2 htools2
  rcases hA : addAssociations agent_id scope (currentToolIds agent_id scope s) newIds s2
    with ⟨radd, s3⟩
  rw [hA] at hadd
  dsimp only at hadd
  obtain ⟨hA1, hA2, hA3⟩ := hadd
  subst hA1
  have hsync : sync_agent_tools env agent_id tools scope s
      = (.ok ⟨0, 0, (newIds.filter
          (fun x => !((currentToolIds agent_id scope s).contains x))).length, removed⟩, s3) := by
    simp only [sync_agent_tools]
    rw [hP]
    dsimp only
    rw [hR]
    dsimp only
    rw [hA]
  refine ⟨by rw [hsync]; rfl, ?_, ?_⟩
  · rw [hsync]
    dsimp only
    rw [hA3, hset2]
    intro hmem
    rcases Finset.mem_union.mp hmem with hleft | hright
    · exact (Finset.mem_sdiff.mp hleft).2 (List.mem_toFinset.mpr htR)
    · have := List.mem_filter.mp (List.mem_toFinset.mp hright)
      exact hnotinN this.1
  · rw [hsync]
    dsimp only [removedOf]
    rw [hremoved]
    exact List.length_pos.mpr (List.ne_nil_of_mem htR)

/-- Witness for C3 at the concrete rejecting storage `envRejectT1` and the
state `stT1` where `ag` is associated with `t1`. -/
theorem C3_witness :
    isErr (sync_agent_tools envRejectT1 "ag" [entryOf "t1"] Scope.SYSTEM stT1).fst = false
    ∧ ¬ "t1" ∈ assocToolIdSet "ag" Scope.SYSTEM
        ((sync_agent_tools envRejectT1 "ag" [entryOf "t1"] Scope.SYSTEM stT1).snd)
    ∧ 1 ≤ removedOf (sync_agent_tools envRejectT1 "ag" [entryOf "t1"]
        Scope.SYSTEM stT1).fst :=
  C3_theorem envRejectT1 "ag" [entryOf "t1"] Scope.SYSTEM stT1 "t1" (by decide)
    (by decide)

/-! ## Claim C7: agent round-trip -/

/-- Helper: `sync_agent_tools` never raises — every declared id it tries
to associate was upserted by its own first phase. -/
theorem sync_agent_tools_ok (env : ToolEnv) (agent_id : String) (tools : List ToolEntry)
    (scope : Scope) (s : ToolSt) :
    isErr (sync_agent_tools env agent_id tools scope s).fst = false := by
  rcases hP : processTools env tools [] s with ⟨newIds, s1⟩
  have htoolsN : ∀ x ∈ newIds, (get_tool x s1).isSome = true := by
    have h := processTools_tools env tools [] s
      (fun x hx => absurd hx (List.not_mem_nil x))
    intro x hx
    rw [← show (processTools env tools [] s).snd = s1 by rw [hP]]
    exact h x (by rw [show (processTools env tools [] s).fst = newIds by rw [hP]]; exact hx)
  rcases hR : removeAssociations agent_id scope ((currentToolIds agent_id scope s).filter
      (fun t => !(newIds.contains t))) s1 with ⟨removed, s2⟩
  have htools2 : ∀ x ∈ newIds, (get_tool x s2).isSome = true := by
    intro x hx
    have h := removeAssociations_tools agent_id scope ((currentToolIds agent_id scope s).filter
      (fun t => !(newIds.contains t))) s1
    rw [hR] at h
    rw [get_tool_congr x h]
    exact htoolsN x hx
  have hadd := addAssociations_spec agent_id scope (currentToolIds agent_id scope s)
    newIds s2 htools2
  rcases hA : addAssociations agent_id scope (currentToolIds agent_id scope s) newIds s2
    with ⟨radd, s3⟩
  rw [hA] at hadd
  dsimp only at hadd
  have hsync : sync_agent_tools env agent_id tools scope s
      = (.ok ⟨0, 0, (newIds.filter
          (fun t => !((currentToolIds agent_id scope s).contains t))).length, removed⟩, s3) := by
    simp only [sync_agent_tools]
    rw [hP]
    dsimp only
    rw [hR]
    dsimp only
    rw [show addAssociations agent_id scope (currentToolIds agent_id scope s) newIds s2
        = (Except.ok ((newIds.filter
            (fun t => !((currentToolIds agent_id scope s).contains t))).length), s3) by
      rw [hA, hadd.1]]
  rw [hsync]
  rfl

/-- Helper: updating only the tool sub-state keeps the agent tables. -/
theorem agentTableOf_toolSt (sc : Scope) (s : AgentSt) (t : ToolSt) :
    agentTableOf sc { s with toolSt := t } = agentTableOf sc s := by
  cases sc <;> rfl

/-- Helper: bumping the uuid counter keeps the agent tables. -/
theorem agentTableOf_ctr (sc : Scope) (s : AgentSt) (n : Nat) :
    agentTableOf sc { s with uuidCtr := n } = agentTableOf sc s := by
  cases sc <;> rfl

/-- Helper: reading back a written agent table. -/
theorem agentTableOf_setAgentTable (sc : Scope) (s : AgentSt) (t : List AgentRow) :
    agentTableOf sc (setAgentTable sc s t) = t := by
  cases sc <;> rfl

/-- Helper: a freshly written definition directory reads back as written. -/
theorem fsLookup_fsWrite (sc : Scope) (name : String) (dd : AgentDef) (fs : AgentFs) :
    fsLookup sc name (fsWrite sc name dd fs) = some dd := by
  unfold fsLookup fsWrite
  rw [find_append_none _ _ _ ?hpre]
  case hpre =>
    refine List.find?_eq_none.mpr ?_
    intro x hx
    have hmem := List.mem_filter.mp hx
    simp only [Bool.not_eq_true'] at hmem
    simp [hmem.2]
  rw [List.find?_cons_of_pos _ (by simp)]
  rfl

/-- Helper: looking up by name in an updated-in-place table where only the
upserted id may carry the target name. -/
theorem find_name_in_updated (row : AgentRow) (tbl : List AgentRow)
    (hOnly : ∀ r ∈ tbl, r.name = row.name → r.id = row.id)
    (hex : tbl.any (fun r => r.id == row.id) = true) :
    ((tbl.map (fun r => if r.id == row.id then
        { r with name := row.name, description := row.description,
                 systemPrompt := row.systemPrompt } else r)).find?
      (fun r => r.name == row.name)).map (fun r => (r.id, r.description, r.systemPrompt))
      = some (row.id, row.description, row.systemPrompt) := by
  revert hOnly hex
  induction tbl with
  | nil =>
    intro hOnly hex
    exact Bool.noConfusion hex
  | cons x xs ih =>
    intro hOnly hex
    cases hx : (x.id == row.id) with
    | true =>
      rw [List.map_cons, if_pos hx]
      rw [List.find?_cons_of_pos _ (by simp)]
      have hid : x.id = row.id := by simpa using hx
      rw [Option.map_some']
      rw [hid]
    | false =>
      have hpx : (x.name == row.name) = false := by
        cases hnm : (x.name == row.name) with
        | false => rfl
        | true =>
          have h1 : x.name = row.name := by simpa using hnm
          have h2 : x.id = row.id := hOnly x (List.mem_cons_self x xs) h1
          rw [show (x.id == row.id) = true by simp [h2]] at hx
          exact Bool.noConfusion hx
      rw [List.map_cons, if_neg (by simp [hx])]
      rw [List.find?_cons_of_neg _ (by simp [hpx])]
      refine ih (fun r hr hname => hOnly r (List.mem_cons_of_mem x hr) hname) ?_
      rcases List.any_eq_true.mp hex with ⟨r, hrm, hrp⟩
      rcases List.mem_cons.mp hrm with rfl | hrx
      · rw [hrp] at hx
        exact Bool.noConfusion hx
      · exact List.any_eq_true.mpr ⟨r, hrx, hrp⟩

/-- Helper: after the agent upsert, the first row found by name carries
the upserted id, description and prompt (given the name-uniqueness
invariant). -/
theorem upsertAgentRow_find_name (row : AgentRow) (tbl : List AgentRow)
    (hOnly : ∀ r ∈ tbl, r.name = row.name → r.id = row.id) :
    ((upsertAgentRow row tbl).find? (fun r => r.name == row.name)).map
      (fun r => (r.id, r.description, r.systemPrompt))
      = some (row.id, row.description, row.systemPrompt) := by
  unfold upsertAgentRow
  cases hany : tbl.any (fun r => r.id == row.id) with
  | true =>
    rw [if_pos rfl]
    exact find_name_in_updated row tbl hOnly hany
  | false =>
    rw [if_neg (by simp)]
    have hnone : tbl.find? (fun r => r.name == row.name) = none := by
      refine List.find?_eq_none.mpr ?_
      intro r hr hp
      have hname : r.name = row.name := by simpa using hp
      have hid : r.id = row.id := hOnly r hr hname
      have hcontra : tbl.any (fun v => v.id == row.id) = true :=
        List.any_eq_true.mpr ⟨r, hr, by simp [hid]⟩
      rw [hany] at hcontra
      exact Bool.noConfusion hcontra
    rw [find_append_none _ _ _ hnone]
    rw [List.find?_cons_of_pos _ (by simp)]
    rfl

/-- Claim C7 (amended): syncing an agent definition to the database and
back reproduces the agent's name and description exactly, and its prompt
text up to stripping of leading/trailing whitespace — an empty (or
all-whitespace) prompt is replaced by the default prompt.  The hypothesis
is the schema's name-uniqueness invariant: any stored row with this name
carries the id the upsert will use. -/
theorem C7_theorem (env : ToolEnv) (name : String) (scope : Scope) (s : AgentSt)
    (d : AgentDef) (hdef : fsLookup scope name s.fs = some d)
    (hOnly : ∀ r ∈ agentTableOf scope s, r.name = name →
      r.id = d.jsonSchemaJson.agentId.getD (freshUuid s.uuidCtr)) :
    (sync_agent_to_db env name scope s).fst
        = .ok (d.jsonSchemaJson.agentId.getD (freshUuid s.uuidCtr))
    ∧ fsLookup scope name ((sync_agent_from_db name scope
          ((sync_agent_to_db env name scope s).snd)).snd).fs
        = some ⟨(if (pyStrip d.systemPromptMd).isEmpty then defaultPrompt name
                 else pyStrip d.systemPromptMd),
                ⟨some (d.jsonSchemaJson.agentId.getD (freshUuid s.uuidCtr)), some name,
                 some (d.jsonSchemaJson.description.getD ""), some (scopeValue scope),
                 some []⟩⟩ := by
  have hmain : ∀ sf : AgentSt,
      agentTableOf scope sf = upsertAgentRow
        ⟨d.jsonSchemaJson.agentId.getD (freshUuid s.uuidCtr), name,
         d.jsonSchemaJson.description.getD "", pyStrip d.systemPromptMd, "gpt-4", false⟩
        (agentTableOf scope s) →
      fsLookup scope name ((sync_agent_from_db name scope sf).snd).fs
        = some ⟨(if (pyStrip d.systemPromptMd).isEmpty then defaultPrompt name
                 else pyStrip d.systemPromptMd),
                ⟨some (d.jsonSchemaJson.agentId.getD (freshUuid s.uuidCtr)), some name,
                 some (d.jsonSchemaJson.description.getD ""), some (scopeValue scope),
                 some []⟩⟩ := by
    intro sf htbl
    have hproj : ((agentTableOf scope sf).find? (fun r => r.name == name)).map
        (fun r => (r.id, r.description, r.systemPrompt))
        = some (d.jsonSchemaJson.agentId.getD (freshUuid s.uuidCtr),
            d.jsonSchemaJson.description.getD "", pyStrip d.systemPromptMd) := by
      rw [htbl]
      exact upsertAgentRow_find_name
        ⟨d.jsonSchemaJson.agentId.getD (freshUuid s.uuidCtr), name,
         d.jsonSchemaJson.description.getD "", pyStrip d.systemPromptMd, "gpt-4", false⟩
        (agentTableOf scope s) hOnly
    cases hfind : (agentTableOf scope sf).find? (fun r => r.name == name) with
    | none =>
      rw [hfind] at hproj
      exact Option.noConfusion hproj
    | some r0 =>
      rw [hfind, Option.map_some'] at hproj
      have hr := Option.some.inj hproj
      have hid : r0.id = d.jsonSchemaJson.agentId.getD (freshUuid s.uuidCtr) :=
        congrArg (fun p => p.1) hr
      have hdesc : r0.description = d.jsonSchemaJson.description.getD "" :=
        congrArg (fun p => p.2.1) hr
      have hprompt : r0.systemPrompt = pyStrip d.systemPromptMd :=
        congrArg (fun p => p.2.2) hr
      have hfrom : sync_agent_from_db name scope sf
          = (.ok r0.id, { sf with fs := (create_agent_files name r0.id scope
              r0.description r0.systemPrompt sf.fs) }) := by
        unfold sync_agent_from_db
        rw [hfind]
      rw [hfrom]
      dsimp only
      unfold create_agent_files
      dsimp only
      rw [fsLookup_fsWrite]
      rw [hid, hdesc, hprompt]
  rcases htool : d.jsonSchemaJson.tools with _ | ts
  · have hto : sync_agent_to_db env name scope s
        = (.ok (d.jsonSchemaJson.agentId.getD (freshUuid s.uuidCtr)),
           setAgentTable scope { s with uuidCtr := s.uuidCtr + 1 }
             (upsertAgentRow
               ⟨d.jsonSchemaJson.agentId.getD (freshUuid s.uuidCtr), name,
                d.jsonSchemaJson.description.getD "", pyStrip d.systemPromptMd, "gpt-4", false⟩
               (agentTableOf scope { s with uuidCtr := s.uuidCtr + 1 }))) := by
      unfold sync_agent_to_db
      rw [hdef]
      dsimp only
      rw [htool]
    refine ⟨by rw [hto], ?_⟩
    rw [hto]
    dsimp only
    apply hmain
    rw [agentTableOf_setAgentTable, agentTableOf_ctr]
  · rcases hts : sync_agent_tools env (d.jsonSchemaJson.agentId.getD (freshUuid s.uuidCtr))
        ts scope (setAgentTable scope { s with uuidCtr := s.uuidCtr + 1 }
          (upsertAgentRow
            ⟨d.jsonSchemaJson.agentId.getD (freshUuid s.uuidCtr), name,
             d.jsonSchemaJson.description.getD "", pyStrip d.systemPromptMd, "gpt-4", false⟩
            (agentTableOf scope { s with uuidCtr := s.uuidCtr + 1 }))).toolSt
        with ⟨rr, t1⟩
    have hok := sync_agent_tools_ok env (d.jsonSchemaJson.agentId.getD (freshUuid s.uuidCtr))
      ts scope (setAgentTable scope { s with uuidCtr := s.uuidCtr + 1 }
        (upsertAgentRow
          ⟨d.jsonSchemaJson.agentId.getD (freshUuid s.uuidCtr), name,
           d.jsonSchemaJson.description.getD "", pyStrip d.systemPromptMd, "gpt-4", false⟩
          (agentTableOf scope { s with uuidCtr := s.uuidCtr + 1 }))).toolSt
    rw [hts] at hok
    dsimp only at hok
    cases rr with
    | error e => exact absurd hok (by simp [isErr])
    | ok v =>
      have hto : sync_agent_to_db env name scope s
          = (.ok (d.jsonSchemaJson.agentId.getD (freshUuid s.uuidCtr)),
             { (setAgentTable scope { s with uuidCtr := s.uuidCtr + 1 }
                 (upsertAgentRow
                   ⟨d.jsonSchemaJson.agentId.getD (freshUuid s.uuidCtr), name,
                    d.jsonSchemaJson.description.getD "", pyStrip d.systemPromptMd,
                    "gpt-4", false⟩
                   (agentTableOf scope { s with uuidCtr := s.uuidCtr + 1 }))) with
               toolSt := t1 }) := by
        unfold sync_agent_to_db
        rw [hdef]
        dsimp only
        rw [htool]
        dsimp only
        rw [hts]
      refine ⟨by rw [hto], ?_⟩
      rw [hto]
      dsimp only
      apply hmain
      rw [agentTableOf_toolSt, agentTableOf_setAgentTable, agentTableOf_ctr]

/-- Claim C7, as stated, is false: the definition `agentDefEx` has prompt
text `"hello\n"`, but after `sync_agent_to_db` followed by
`sync_agent_from_db` the local prompt file holds `"hello"` — the prompt is
stripped on the way in, so the original prompt text is not reproduced. -/
theorem C7_counterexample :
    fsLookup Scope.SYSTEM "a1" ((sync_agent_from_db "a1" Scope.SYSTEM
        ((sync_agent_to_db envAccepting "a1" Scope.SYSTEM agentStEx).snd)).snd).fs
      = some ⟨"hello", ⟨some "id1", some "a1", some "d", some "SYSTEM", some []⟩⟩
    ∧ ¬ ("hello" = "hello\n") := by
  exact ⟨by decide, by decide⟩

/-- Witness for C7 at the concrete definition `agentDefEx`. -/
theorem C7_witness :
    (sync_agent_to_db envAccepting "a1" Scope.SYSTEM agentStEx).fst
        = .ok (agentDefEx.jsonSchemaJson.agentId.getD (freshUuid agentStEx.uuidCtr))
    ∧ fsLookup Scope.SYSTEM "a1" ((sync_agent_from_db "a1" Scope.SYSTEM
          ((sync_agent_to_db envAccepting "a1" Scope.SYSTEM agentStEx).snd)).snd).fs
        = some ⟨(if (pyStrip agentDefEx.systemPromptMd).isEmpty then defaultPrompt "a1"
                 else pyStrip agentDefEx.systemPromptMd),
                ⟨some (agentDefEx.jsonSchemaJson.agentId.getD (freshUuid agentStEx.uuidCtr)),
                 some "a1",
                 some (agentDefEx.jsonSchemaJson.description.getD ""),
                 some (scopeValue Scope.SYSTEM), some []⟩⟩ :=
  C7_theorem envAccepting "a1" Scope.SYSTEM agentStEx agentDefEx rfl
    (fun r hr _ => absurd hr (List.not_mem_nil r))

end CCRM
